import Mathlib

/-! Universal game controller.

A shallow embedding of `src/universal_game_controller.c`: the device-name
allocator (`ugc_device_name_acquire`, `ugc_device_name_release`), the value
normaliser (`normalize_value`) and the per-device binding-learning state machine
(`ugc_event`), followed by the properties proved about them.

Conventions.
* C unsigned integers are natural numbers, reduced modulo `2 ^ 32` or `2 ^ 64`
  where the C arithmetic can wrap; C signed integers are integers.
* A function whose C body can run into undefined behaviour (a bit or array
  access outside the object, a division by zero) returns an `Option`; `none`
  stands for that undefined behaviour.
* Global state is passed explicitly.
-/

set_option maxRecDepth 4000

namespace UGC

/-! ## Constants -/

/-- The macro `UGC_MAX_DEVICES` (256u). -/
abbrev UGC_MAX_DEVICES : Nat := 256

/-- The macro `UGC_MAX_INPUTS` (50). -/
abbrev UGC_MAX_INPUTS : Nat := 50

/-- The kernel constant `U32_MAX`. -/
def U32_MAX : Nat := 2 ^ 32 - 1

/-- The constant `g_UGC_MAX_VALUE = U32_MAX`. -/
def g_UGC_MAX_VALUE : Nat := U32_MAX

/-- The constant `g_UGC_MIN_PRESSED_VALUE = U32_MAX / 2`. -/
def g_UGC_MIN_PRESSED_VALUE : Nat := U32_MAX / 2

/-- The Linux event type `EV_KEY` (input-event-codes.h). -/
def EV_KEY : Nat := 1

/-- The Linux event type `EV_REL` (input-event-codes.h). -/
def EV_REL : Nat := 2

/-! ## Integer conversions of C -/

/-- Conversion of a C `int` to `__u32`, as done when an `int` argument is
passed for a `__u32` parameter. -/
def u32_of_int (x : Int) : Nat := (x % 2 ^ 32).toNat

/-- Result of 32-bit signed arithmetic; the kernel is built with wrapping
signed overflow, so the mathematical result is reduced into the range of `int`. -/
def s32_wrap (x : Int) : Int := (x + 2 ^ 31) % 2 ^ 32 - 2 ^ 31

/-- The C conversion `(char)x`; `char_signed` tells whether plain `char` is a
signed type on the platform. -/
def char_cast (char_signed : Bool) (x : Int) : Int :=
  if char_signed then (x + 128) % 256 - 128 else x % 256

/-- The C conversion `(unsigned char)x`. -/
def uchar_cast (x : Int) : Fin 256 := Fin.ofNat (x % 256).toNat

/-! ## Device names -/

/-- The table `ugc_device_name[UGC_MAX_DEVICES][2]`: row `index` is generated by
`UGC_NAME_PT(offset)` with `offset = 16 * (index / 16)` as the initialiser
`{(char)offset + index % 16}`, the second character being the terminator. -/
def ugc_device_name (char_signed : Bool) (index : Nat) : Int × Int :=
  (char_cast char_signed (char_cast char_signed (16 * (index / 16 : Nat)) + (index % 16 : Nat)), 0)

/-- The macro `UGC_NAME_TO_INDEX(name)`, `+(unsigned char)*(name)`. -/
def UGC_NAME_TO_INDEX (name : Int × Int) : Fin UGC_MAX_DEVICES := uchar_cast name.1

/-! ## Device name allocator -/

/-- The type `struct ugc_device_group`: a bitmap of `UGC_MAX_DEVICES` bits and
the `unsigned int` counter `num_acquired`. -/
structure ugc_device_group where
  acquiredbit : Fin UGC_MAX_DEVICES → Bool
  num_acquired : Nat

/-- The initial value `g_device_group = {0}`. -/
def g_device_group_init : ugc_device_group :=
  { acquiredbit := fun _ => false, num_acquired := 0 }

/-- Scanning loop of `find_first_zero_bit`: looks at bit `i`, then `i + 1`, ...
for at most `fuel` bits and answers `size` when none of them is clear. -/
def find_zero_bit_scan (addr : Fin UGC_MAX_DEVICES → Bool) (size : Nat) : Nat → Nat → Nat
  | 0, _ => size
  | fuel + 1, i =>
    if h : i < UGC_MAX_DEVICES then
      if addr ⟨i, h⟩ then find_zero_bit_scan addr size fuel (i + 1) else i
    else size

/-- The kernel primitive `find_first_zero_bit(addr, size)`: the number of the
first clear bit among the first `size` bits, and `size` when there is none. -/
def find_first_zero_bit (addr : Fin UGC_MAX_DEVICES → Bool) (size : Nat) : Nat :=
  find_zero_bit_scan addr size size 0

/-- The kernel primitive `set_bit(nr, addr)` on the 256-bit map; a bit number
outside the map is an out-of-bounds write. -/
def set_bit (nr : Nat) (addr : Fin UGC_MAX_DEVICES → Bool) :
    Option (Fin UGC_MAX_DEVICES → Bool) :=
  if h : nr < UGC_MAX_DEVICES then some (Function.update addr ⟨nr, h⟩ true) else none

/-- The kernel primitive `test_and_clear_bit(nr, addr)`: the old value of the
bit and the map with the bit cleared. -/
def test_and_clear_bit (nr : Fin UGC_MAX_DEVICES) (addr : Fin UGC_MAX_DEVICES → Bool) :
    Bool × (Fin UGC_MAX_DEVICES → Bool) :=
  (addr nr, Function.update addr nr false)

/-- The function `ugc_device_name_acquire`. The result is the returned pointer
(`none` for `NULL`, otherwise the table row) and the group afterwards. -/
def ugc_device_name_acquire (char_signed : Bool) (group : ugc_device_group) :
    Option (Option (Int × Int) × ugc_device_group) :=
  if group.num_acquired < UGC_MAX_DEVICES then
    let index := find_first_zero_bit group.acquiredbit UGC_MAX_DEVICES
    match set_bit index group.acquiredbit with
    | none => none
    | some bits =>
      some (some (ugc_device_name char_signed index),
        { acquiredbit := bits, num_acquired := (group.num_acquired + 1) % 2 ^ 32 })
  else
    some (none, group)

/-- The function `ugc_device_name_release`. -/
def ugc_device_name_release (group : ugc_device_group) (name : Int × Int) :
    ugc_device_group :=
  let r := test_and_clear_bit (UGC_NAME_TO_INDEX name) group.acquiredbit
  if r.1 then
    { acquiredbit := r.2, num_acquired := (group.num_acquired + (2 ^ 32 - 1)) % 2 ^ 32 }
  else
    { acquiredbit := r.2, num_acquired := group.num_acquired }

/-- Number of set bits of the bitmap. -/
def bits_set (addr : Fin UGC_MAX_DEVICES → Bool) : Nat :=
  (Finset.univ.filter (fun i => addr i = true)).card

/-- Calls `ugc_device_name_acquire` `n` times in a row and keeps the group. -/
def acquire_times (char_signed : Bool) : Nat → ugc_device_group → Option ugc_device_group
  | 0, group => some group
  | n + 1, group =>
    match ugc_device_name_acquire char_signed group with
    | none => none
    | some r => acquire_times char_signed n r.2

/-- The group in which exactly the bits `0 .. n - 1` are set and counted. -/
def first_bits (n : Nat) : ugc_device_group :=
  { acquiredbit := fun i => decide (i.val < n), num_acquired := n }

/-! ## Value normaliser -/

/-- The function `normalize_value`:
`(__u32)((__u64)((__s64)value - minimum) * (((__u64)1 << 32) - 1) /
(__u64)((__s64)maximum - minimum))`. -/
def normalize_value (value : Nat) (minimum maximum : Int) : Option Nat :=
  let num : Nat := ((((value : Int) - minimum) % 2 ^ 64).toNat * (2 ^ 32 - 1)) % 2 ^ 64
  let den : Nat := ((maximum - minimum) % 2 ^ 64).toNat
  if den = 0 then none else some ((num / den) % 2 ^ 32)

/-! ## Device records -/

/-- The type `enum ugc_config_state`. -/
inductive ugc_config_state where
  | CONNECTED
  | CONFIGURING
  | READY
  deriving DecidableEq

/-- Modelled from the spec: `struct ugc_input` of the header `ugc_input.h`, which
is not among the sources. The fields are the ones `ugc_event` uses: the identity
`(type, code, positive)` and the 32-bit `value` (the magnitude of an event, the
logical index of a stored node). The embedded tree linkage is represented in
`ugc_device.input_code_to_index`. -/
structure ugc_input where
  type : Nat
  code : Nat
  positive : Bool
  value : Nat
  deriving DecidableEq

/-- The kernel type `struct input_absinfo`, with the two fields that are read. -/
structure input_absinfo where
  minimum : Int
  maximum : Int

/-- The kernel type `struct input_dev`, reduced to the table `absinfo` that
`ugc_event` reads at `absinfo + code`. -/
structure input_dev where
  absinfo : Nat → input_absinfo

/-- The type `struct ugc_device`. The tree `input_code_to_index` links nodes that
live in `input_nodes`; it is represented by the positions of the linked nodes,
in the order in which they were linked. -/
structure ugc_device where
  dev : input_dev
  config_state : ugc_config_state
  count : Nat
  last_input : ugc_input
  input_nodes : Fin UGC_MAX_INPUTS → ugc_input
  input_code_to_index : List (Fin UGC_MAX_INPUTS)
  input_state : Fin UGC_MAX_INPUTS → Nat

/-- The record stored by `ugc_connect_device`:
`(struct ugc_device) { .dev = dev, .input_code_to_index = RB_ROOT }`, every
other member being zero. -/
def ugc_device_connected (dev : input_dev) : ugc_device :=
  { dev := dev
    config_state := ugc_config_state.CONNECTED
    count := 0
    last_input := { type := 0, code := 0, positive := false, value := 0 }
    input_nodes := fun _ => { type := 0, code := 0, positive := false, value := 0 }
    input_code_to_index := []
    input_state := fun _ => 0 }

/-! ## Binding directory -/

/-- Modelled from the spec: `ugc_input_compare` of the header `ugc_input.h`, which
is not among the sources. Inputs are ordered by `(kind, code, sign)`; the result
is `0` exactly when the identities are equal, the magnitude playing no part. -/
def ugc_input_compare (a b : ugc_input) : Int :=
  if a.type < b.type then -1
  else if b.type < a.type then 1
  else if a.code < b.code then -1
  else if b.code < a.code then 1
  else if a.positive = b.positive then 0
  else if b.positive then -1
  else 1

/-- Modelled from the spec: `ugc_input_search` of the header `ugc_input.h`, which
is not among the sources: `search(identity) -> Optional<logicalIndex>`. The
answer is the linked node whose identity equals that of `key`, if there is one. -/
def ugc_input_search (root : List (Fin UGC_MAX_INPUTS))
    (nodes : Fin UGC_MAX_INPUTS → ugc_input) (key : ugc_input) :
    Option (Fin UGC_MAX_INPUTS) :=
  root.find? (fun n => decide (ugc_input_compare (nodes n) key = 0))

/-- Modelled from the spec: `ugc_input_insert` of the header `ugc_input.h`, which
is not among the sources: `insert(identity, logicalIndex) -> bool`, which fails
if the identity is already present or the capacity is exceeded and succeeds
otherwise. The node to link is the element `node` of `nodes`; the result is the
returned flag and the tree afterwards. -/
def ugc_input_insert (root : List (Fin UGC_MAX_INPUTS))
    (nodes : Fin UGC_MAX_INPUTS → ugc_input) (node : Fin UGC_MAX_INPUTS) :
    Bool × List (Fin UGC_MAX_INPUTS) :=
  if (ugc_input_search root nodes (nodes node)).isSome ∨ UGC_MAX_INPUTS ≤ root.length then
    (false, root)
  else
    (true, root ++ [node])

/-- The bindings held by a device: the linked nodes, each carrying an identity
and, in `value`, its logical index. -/
def bindings (device : ugc_device) : List ugc_input :=
  device.input_code_to_index.map device.input_nodes

/-! ## Event handling -/

/-- The part of `ugc_event` that builds `this_input` from the event (the
declaration of `this_input` and the `if (type == EV_REL) ... else ...` that
fills in `positive` and `value`). -/
def ugc_event_this_input (dev : input_dev) (type code : Nat) (value : Int) :
    Option ugc_input :=
  if type = EV_REL then
    let absinfo := dev.absinfo code
    if value < 0 then
      (normalize_value (u32_of_int (s32_wrap (0 - value))) 0
          (s32_wrap (-absinfo.minimum))).map
        (fun v => { type := type, code := code, positive := false, value := v })
    else
      (normalize_value (u32_of_int value) 0 absinfo.maximum).map
        (fun v => { type := type, code := code, positive := true, value := v })
  else
    (normalize_value (u32_of_int value) 0 1).map
      (fun v => { type := type, code := code, positive := true, value := v })

/-- The function `ugc_event`, acting on the record
`g_devices + UGC_NAME_TO_INDEX(handle->name)` of the device the event is for.
The result is the record afterwards; `none` stands for a division by zero in
`normalize_value` or for a write outside `input_nodes` or `input_state`. -/
def ugc_event (device : ugc_device) (type code : Nat) (value : Int) : Option ugc_device :=
  if type = EV_REL ∨ type = EV_KEY then
    match ugc_event_this_input device.dev type code value with
    | none => none
    | some this_input =>
      if device.config_state ≠ ugc_config_state.READY ∧
          g_UGC_MIN_PRESSED_VALUE ≤ this_input.value then
        if device.config_state = ugc_config_state.CONNECTED then
          if ugc_input_compare device.last_input this_input = 0 then
            if (device.count + 1) % 2 ^ 32 = 10 then
              some { device with config_state := ugc_config_state.CONFIGURING, count := 0 }
            else
              some { device with count := (device.count + 1) % 2 ^ 32 }
          else
            some { device with last_input := this_input, count := 1 }
        else if device.config_state = ugc_config_state.CONFIGURING then
          let is_terminal : Bool := decide (ugc_input_compare device.last_input this_input = 0)
          let found := ugc_input_search device.input_code_to_index device.input_nodes this_input
          if found.isSome ∨ (device.count = 0 ∧ is_terminal = true) then
            some device
          else if h : device.count < UGC_MAX_INPUTS then
            let node : Fin UGC_MAX_INPUTS := ⟨device.count, h⟩
            let input_nodes :=
              Function.update device.input_nodes node { this_input with value := device.count }
            let inserted := ugc_input_insert device.input_code_to_index input_nodes node
            some { device with
              input_nodes := input_nodes
              input_code_to_index := inserted.2
              count := (device.count + 1) % 2 ^ 32
              config_state :=
                if is_terminal then ugc_config_state.READY else device.config_state }
          else
            none
        else
          some device
      else if device.config_state = ugc_config_state.READY then
        match ugc_input_search device.input_code_to_index device.input_nodes this_input with
        | none => some device
        | some node =>
          if h : (device.input_nodes node).value < UGC_MAX_INPUTS then
            some { device with
              input_state :=
                Function.update device.input_state ⟨(device.input_nodes node).value, h⟩
                  this_input.value }
          else
            none
      else
        some device
  else
    some device

/-- An event as delivered to `ugc_event`: `(type, code, value)`. -/
structure ugc_raw_event where
  type : Nat
  code : Nat
  value : Int

/-- Feeds a sequence of events to `ugc_event`, one after the other. -/
def ugc_events (device : ugc_device) : List ugc_raw_event → Option ugc_device
  | [] => some device
  | e :: es =>
    match ugc_event device e.type e.code e.value with
    | none => none
    | some device1 => ugc_events device1 es

/-- The event `e`, delivered to a device whose kernel data is `dev`, passes the
type test of `ugc_event` and is built into the input `inp`. -/
def event_input (dev : input_dev) (e : ugc_raw_event) (inp : ugc_input) : Prop :=
  (e.type = EV_REL ∨ e.type = EV_KEY) ∧
    ugc_event_this_input dev e.type e.code e.value = some inp

instance (dev : input_dev) (e : ugc_raw_event) (inp : ugc_input) :
    Decidable (event_input dev e inp) := by
  unfold event_input
  infer_instance

/-- The event "key `code` pressed" (value 1). -/
def key_press (code : Nat) : ugc_raw_event := { type := EV_KEY, code := code, value := 1 }

/-- The event "key `code` released" (value 0). -/
def key_release (code : Nat) : ugc_raw_event := { type := EV_KEY, code := code, value := 0 }

/-- The input built from a key press: full scale, positive. -/
def key_input (code : Nat) : ugc_input :=
  { type := EV_KEY, code := code, positive := true, value := 2 ^ 32 - 1 }

/-- A kernel device whose axes all report the range `[-128, 127]`. -/
def dev_example : input_dev := { absinfo := fun _ => { minimum := -128, maximum := 127 } }

/-- The record of a device that has just entered `CONFIGURING` through ten
presses of key 5. -/
def configuring_example : ugc_device :=
  { ugc_device_connected dev_example with
    config_state := ugc_config_state.CONFIGURING
    last_input := key_input 5 }

/-- The record of a device that is `READY` with key 6 bound to logical index 0. -/
def ready_example : ugc_device :=
  { ugc_device_connected dev_example with
    config_state := ugc_config_state.READY
    count := 1
    last_input := key_input 6
    input_nodes := Function.update (ugc_device_connected dev_example).input_nodes 0
      { key_input 6 with value := 0 }
    input_code_to_index := [0] }

/-- The normaliser as the specification words it,
`round((raw - min) * (2^32-1) / (max - min))`: the exact rational value rounded
to the nearest integer. -/
def normalize_reference (raw minimum maximum : Int) : Int :=
  round ((((raw - minimum) * (2 ^ 32 - 1) : Int) : ℚ) / ((maximum - minimum : Int) : ℚ))

/-- A call made on the allocator: `ugc_device_name_acquire`, or
`ugc_device_name_release` with some name. -/
inductive allocator_call where
  | acquire
  | release (name : Int × Int)

/-- Runs a sequence of allocator calls on a group, one after the other. -/
def allocator_run (char_signed : Bool) :
    List allocator_call → ugc_device_group → Option ugc_device_group
  | [], group => some group
  | allocator_call.acquire :: calls, group =>
    match ugc_device_name_acquire char_signed group with
    | none => none
    | some r => allocator_run char_signed calls r.2
  | allocator_call.release name :: calls, group =>
    allocator_run char_signed calls (ugc_device_name_release group name)

/-! ## Connecting and disconnecting -/

/-- The globals `g_device_group` and `g_devices`. -/
structure ugc_globals where
  g_device_group : ugc_device_group
  g_devices : Fin UGC_MAX_DEVICES → ugc_device

/-- The initial globals: `g_device_group = {0}` and the zeroed table
`g_devices`. -/
def ugc_globals_init : ugc_globals :=
  { g_device_group := g_device_group_init
    g_devices := fun _ => ugc_device_connected { absinfo := fun _ => { minimum := 0, maximum := 0 } } }

/-- The kernel type `struct input_handle`, reduced to the members `dev` and
`name` that `ugc_connect_device` fills in and the other callbacks read. -/
structure input_handle where
  dev : input_dev
  name : Int × Int

/-- What the kernel calls made by `ugc_connect_device` answer: whether `kzalloc`
returns memory, and the values returned by `input_register_handle` and
`input_open_device`. -/
structure connect_kernel where
  kzalloc_ok : Bool
  register_error : Int
  open_error : Int

/-- The kernel error number `ENOMEM`. -/
def ENOMEM : Int := 12

/-- What a call of `ugc_connect_device` leaves behind: the returned `int`, the
handle that stays registered and open (if any) and the globals. -/
structure connect_result where
  ret : Int
  handle : Option input_handle
  globals : ugc_globals

/-- The function `ugc_connect_device`. -/
def ugc_connect_device (char_signed : Bool) (kernel : connect_kernel) (dev : input_dev)
    (st : ugc_globals) : Option connect_result :=
  if kernel.kzalloc_ok = false then
    some { ret := -ENOMEM, handle := none, globals := st }
  else
    match ugc_device_name_acquire char_signed st.g_device_group with
    | none => none
    | some (none, group) =>
      some { ret := 0, handle := none, globals := { st with g_device_group := group } }
    | some (some device_name, group) =>
      if kernel.register_error ≠ 0 then
        some { ret := kernel.register_error, handle := none,
               globals := { st with g_device_group := group } }
      else if kernel.open_error ≠ 0 then
        some { ret := kernel.open_error, handle := none,
               globals := { st with g_device_group := group } }
      else
        some { ret := 0, handle := some { dev := dev, name := device_name },
               globals :=
                { g_device_group := group
                  g_devices := Function.update st.g_devices (UGC_NAME_TO_INDEX device_name)
                    (ugc_device_connected dev) } }

/-- The function `ugc_disconnect_device`: the name of the handle is released,
the device record is left as it is. -/
def ugc_disconnect_device (handle : input_handle) (st : ugc_globals) : ugc_globals :=
  { st with g_device_group := ugc_device_name_release st.g_device_group handle.name }

/-- Kernel answers with which `ugc_connect_device` goes through. -/
def kernel_ok : connect_kernel := { kzalloc_ok := true, register_error := 0, open_error := 0 }

/-- Globals in which the record 0 belongs to a device that reached `READY`,
has a populated `input_state` and has been disconnected (its name is free). -/
def reused_example : ugc_globals :=
  { g_device_group := g_device_group_init
    g_devices := fun _ =>
      { ready_example with
        input_state := Function.update ready_example.input_state 0 4294967295 } }

/-- Globals in which all 256 names are acquired. -/
def exhausted_example : ugc_globals :=
  { g_device_group := first_bits UGC_MAX_DEVICES
    g_devices := fun _ => ugc_device_connected dev_example }

/-- Well-formedness of the directory of a device record: the linked nodes are
the nodes `0, 1, ..., n - 1` in this order, the node `i` keeps the logical index
`i`, the identities bound are pairwise distinct, the directory is empty while
`CONNECTED`, and afterwards `count` is the number of entries. -/
def directory_wf (d : ugc_device) : Prop :=
  d.input_code_to_index.map Fin.val = List.range d.input_code_to_index.length ∧
  (∀ n ∈ d.input_code_to_index, (d.input_nodes n).value = n.val) ∧
  (bindings d).Pairwise (fun a b => ugc_input_compare a b ≠ 0) ∧
  (d.config_state = ugc_config_state.CONNECTED → d.input_code_to_index = []) ∧
  (d.config_state ≠ ugc_config_state.CONNECTED → d.count = d.input_code_to_index.length)

/-- A kernel device whose axes all report the range `[0, 255]`. -/
def dev_trigger_example : input_dev :=
  { absinfo := fun _ => { minimum := 0, maximum := 255 } }

/-- The record of a device with axes of range `[0, 255]` that is `READY` with
key 6 bound to logical index 0 and the terminal key 5 bound to logical index 1. -/
def ready_trigger_example : ugc_device :=
  { ugc_device_connected dev_trigger_example with
    config_state := ugc_config_state.READY
    count := 2
    last_input := key_input 5
    input_nodes :=
      Function.update
        (Function.update (ugc_device_connected dev_trigger_example).input_nodes 0
          { key_input 6 with value := 0 })
        1 { key_input 5 with value := 1 }
    input_code_to_index := [0, 1] }

/-! ## Lemmas on device names and the bitmap -/

theorem name_to_index_val (cs : Bool) (i : Nat) (h : i < 256) :
    (UGC_NAME_TO_INDEX (ugc_device_name cs i)).val = i := by
  cases cs <;>
  simp only [UGC_NAME_TO_INDEX, ugc_device_name, uchar_cast, char_cast, Fin.ofNat, if_true,
    if_false, Bool.false_eq_true] <;> omega

theorem name_to_index (cs : Bool) (k : Fin UGC_MAX_DEVICES) :
    UGC_NAME_TO_INDEX (ugc_device_name cs k.val) = k :=
  Fin.ext (name_to_index_val cs k.val k.isLt)

theorem find_zero_bit_scan_eq (addr : Fin UGC_MAX_DEVICES → Bool) (size : Nat)
    (k : Fin UGC_MAX_DEVICES) (hk : addr k = false) :
    ∀ (fuel i : Nat), i ≤ k.val → k.val < i + fuel →
      (∀ j : Fin UGC_MAX_DEVICES, i ≤ j.val → j.val < k.val → addr j = true) →
      find_zero_bit_scan addr size fuel i = k.val := by
  intro fuel
  induction fuel with
  | zero => intro i h1 h2; omega
  | succ fuel ih =>
    intro i h1 h2 hall
    have hi : i < UGC_MAX_DEVICES := lt_of_le_of_lt h1 k.isLt
    rw [find_zero_bit_scan, dif_pos hi]
    by_cases hik : i = k.val
    · have : (⟨i, hi⟩ : Fin UGC_MAX_DEVICES) = k := Fin.ext hik
      rw [this, hk]
      simp [hik]
    · have hlt : i < k.val := lt_of_le_of_ne h1 hik
      rw [hall ⟨i, hi⟩ (le_refl _) hlt]
      simp only [if_true]
      exact ih (i + 1) hlt (by omega) (fun j hj1 hj2 => hall j (by omega) hj2)

theorem find_first_zero_bit_eq (addr : Fin UGC_MAX_DEVICES → Bool)
    (k : Fin UGC_MAX_DEVICES) (hk : addr k = false)
    (hall : ∀ j : Fin UGC_MAX_DEVICES, j < k → addr j = true) :
    find_first_zero_bit addr UGC_MAX_DEVICES = k.val :=
  find_zero_bit_scan_eq addr _ k hk _ 0 (Nat.zero_le _) (by simp)
    (fun j _ hj => hall j hj)

theorem bits_set_le (addr : Fin UGC_MAX_DEVICES → Bool) : bits_set addr ≤ UGC_MAX_DEVICES := by
  have := Finset.card_le_univ (Finset.univ.filter (fun i => addr i = true))
  simpa [bits_set] using this

theorem bits_set_lt_of_clear (addr : Fin UGC_MAX_DEVICES → Bool) (i : Fin UGC_MAX_DEVICES)
    (hi : addr i = false) : bits_set addr < UGC_MAX_DEVICES := by
  have h : Finset.univ.filter (fun i => addr i = true) ⊂ Finset.univ := by
    rw [Finset.ssubset_univ_iff]
    intro hu
    have : i ∈ Finset.univ.filter (fun i => addr i = true) := by rw [hu]; exact Finset.mem_univ i
    simp [hi] at this
  have := Finset.card_lt_card h
  simpa [bits_set] using this

theorem bits_set_pos_of_set (addr : Fin UGC_MAX_DEVICES → Bool) (i : Fin UGC_MAX_DEVICES)
    (hi : addr i = true) : 0 < bits_set addr := by
  unfold bits_set
  exact Finset.card_pos.mpr ⟨i, by simp [hi]⟩

theorem exists_lowest_clear (addr : Fin UGC_MAX_DEVICES → Bool) (i : Fin UGC_MAX_DEVICES)
    (hi : addr i = false) :
    ∃ k : Fin UGC_MAX_DEVICES,
      addr k = false ∧ ∀ j : Fin UGC_MAX_DEVICES, j < k → addr j = true := by
  classical
  have hne : (Finset.univ.filter (fun i => addr i = false)).Nonempty := ⟨i, by simp [hi]⟩
  refine ⟨(Finset.univ.filter (fun i => addr i = false)).min' hne, ?_, ?_⟩
  · have := Finset.min'_mem _ hne
    simpa using this
  · intro j hj
    by_contra hc
    have hjm : j ∈ Finset.univ.filter (fun i => addr i = false) := by simpa using hc
    exact absurd (Finset.min'_le _ j hjm) (not_le.mpr hj)

/-- Acquiring when bit `k` is the lowest clear bit and the counter is below the
maximum: the name of `k` is returned, bit `k` is set and the counter goes up. -/
theorem acquire_lowest (cs : Bool) (g : ugc_device_group) (k : Fin UGC_MAX_DEVICES)
    (hn : g.num_acquired < UGC_MAX_DEVICES) (hk : g.acquiredbit k = false)
    (hall : ∀ j : Fin UGC_MAX_DEVICES, j < k → g.acquiredbit j = true) :
    ugc_device_name_acquire cs g =
      some (some (ugc_device_name cs k.val),
        { acquiredbit := Function.update g.acquiredbit k true,
          num_acquired := g.num_acquired + 1 }) := by
  have hmod : (g.num_acquired + 1) % 2 ^ 32 = g.num_acquired + 1 := by
    have : g.num_acquired < 256 := hn
    omega
  unfold ugc_device_name_acquire
  rw [if_pos hn]
  simp only [find_first_zero_bit_eq g.acquiredbit k hk hall, set_bit, dif_pos k.isLt, hmod]

theorem first_bits_update (j : Nat) (h : j < UGC_MAX_DEVICES) :
    Function.update (first_bits j).acquiredbit ⟨j, h⟩ true = (first_bits (j + 1)).acquiredbit := by
  funext i
  by_cases hi : i = ⟨j, h⟩
  · subst hi
    simp [first_bits]
  · have hne : i.val ≠ j := fun hv => hi (Fin.ext hv)
    rw [Function.update_noteq hi]
    simp only [first_bits, decide_eq_decide]
    omega

theorem acquire_first_bits (cs : Bool) (j : Nat) (h : j < UGC_MAX_DEVICES) :
    ugc_device_name_acquire cs (first_bits j) =
      some (some (ugc_device_name cs j), first_bits (j + 1)) := by
  have hk : (first_bits j).acquiredbit ⟨j, h⟩ = false := by simp [first_bits]
  have hall : ∀ i : Fin UGC_MAX_DEVICES, i < ⟨j, h⟩ → (first_bits j).acquiredbit i = true := by
    intro i hi
    have : i.val < j := hi
    simp [first_bits, this]
  rw [acquire_lowest cs (first_bits j) ⟨j, h⟩ h hk hall, first_bits_update j h]
  rfl

theorem acquire_times_first_bits (cs : Bool) :
    ∀ (n j : Nat), j + n ≤ UGC_MAX_DEVICES →
      acquire_times cs n (first_bits j) = some (first_bits (j + n)) := by
  intro n
  induction n with
  | zero => intro j _; rfl
  | succ n ih =>
    intro j h
    rw [acquire_times, acquire_first_bits cs j (by omega)]
    simp only
    rw [ih (j + 1) (by omega)]
    congr 2
    omega

theorem acquire_full (cs : Bool) :
    ugc_device_name_acquire cs (first_bits UGC_MAX_DEVICES) =
      some (none, first_bits UGC_MAX_DEVICES) := by
  simp [ugc_device_name_acquire, first_bits]

theorem g_device_group_init_eq : g_device_group_init = first_bits 0 := by
  simp [g_device_group_init, first_bits]

/-! ## The allocator -/

/-- Claim C6. Starting from the empty group, the call number `j` (for `j` from 0
to 255) of `ugc_device_name_acquire` succeeds and returns the name whose index
is exactly `j`; after these 256 calls a further call returns `NULL` and leaves
the bitmap and the counter as they were. -/
theorem acquire_fill (cs : Bool) :
    (∀ j : Fin UGC_MAX_DEVICES, ∃ g g1 : ugc_device_group,
      acquire_times cs j.val g_device_group_init = some g ∧
      ugc_device_name_acquire cs g = some (some (ugc_device_name cs j.val), g1) ∧
      UGC_NAME_TO_INDEX (ugc_device_name cs j.val) = j) ∧
    (∃ g : ugc_device_group,
      acquire_times cs UGC_MAX_DEVICES g_device_group_init = some g ∧
      ugc_device_name_acquire cs g = some (none, g)) := by
  constructor
  · intro j
    refine ⟨first_bits j.val, first_bits (j.val + 1), ?_, ?_, name_to_index cs j⟩
    · rw [g_device_group_init_eq, acquire_times_first_bits cs j.val 0 (by omega)]
      simp
    · exact acquire_first_bits cs j.val j.isLt
  · refine ⟨first_bits UGC_MAX_DEVICES, ?_, acquire_full cs⟩
    rw [g_device_group_init_eq, acquire_times_first_bits cs UGC_MAX_DEVICES 0 (by omega)]
    simp

/-- Claim C7. In a group whose counter equals the number of set bits and which
has a clear bit, `ugc_device_name_acquire` returns the name of the lowest clear
bit, sets that bit, leaves every other bit as it was and adds one to the
counter. -/
theorem acquire_lowest_free (cs : Bool) (g : ugc_device_group) (i : Fin UGC_MAX_DEVICES)
    (hcount : g.num_acquired = bits_set g.acquiredbit) (hfree : g.acquiredbit i = false) :
    ∃ (k : Fin UGC_MAX_DEVICES) (g1 : ugc_device_group),
      ugc_device_name_acquire cs g = some (some (ugc_device_name cs k.val), g1) ∧
      UGC_NAME_TO_INDEX (ugc_device_name cs k.val) = k ∧
      g.acquiredbit k = false ∧
      (∀ j : Fin UGC_MAX_DEVICES, j < k → g.acquiredbit j = true) ∧
      g1.acquiredbit k = true ∧
      (∀ j : Fin UGC_MAX_DEVICES, j ≠ k → g1.acquiredbit j = g.acquiredbit j) ∧
      g1.num_acquired = g.num_acquired + 1 := by
  obtain ⟨k, hk, hall⟩ := exists_lowest_clear g.acquiredbit i hfree
  have hn : g.num_acquired < UGC_MAX_DEVICES := by
    rw [hcount]
    exact bits_set_lt_of_clear g.acquiredbit i hfree
  refine ⟨k, _, acquire_lowest cs g k hn hk hall, name_to_index cs k, hk, hall, ?_, ?_, rfl⟩
  · simp
  · intro j hj
    simp [Function.update_noteq hj]

/-- Witness for `acquire_lowest_free`: the empty group. -/
theorem acquire_lowest_free_witness :
    g_device_group_init.num_acquired = bits_set g_device_group_init.acquiredbit ∧
    g_device_group_init.acquiredbit 0 = false ∧
    ∃ (k : Fin UGC_MAX_DEVICES) (g1 : ugc_device_group),
      ugc_device_name_acquire true g_device_group_init =
        some (some (ugc_device_name true k.val), g1) ∧
      UGC_NAME_TO_INDEX (ugc_device_name true k.val) = k ∧
      g_device_group_init.acquiredbit k = false ∧
      (∀ j : Fin UGC_MAX_DEVICES, j < k → g_device_group_init.acquiredbit j = true) ∧
      g1.acquiredbit k = true ∧
      (∀ j : Fin UGC_MAX_DEVICES, j ≠ k → g1.acquiredbit j = g_device_group_init.acquiredbit j) ∧
      g1.num_acquired = g_device_group_init.num_acquired + 1 :=
  ⟨by simp [g_device_group_init, bits_set], rfl,
    acquire_lowest_free true g_device_group_init 0
      (by simp [g_device_group_init, bits_set]) rfl⟩

/-- Releasing a name whose bit is set clears the bit and takes one off the
counter (in `unsigned int` arithmetic). -/
theorem release_held (g : ugc_device_group) (name : Int × Int)
    (h : g.acquiredbit (UGC_NAME_TO_INDEX name) = true) :
    ugc_device_name_release g name =
      { acquiredbit := Function.update g.acquiredbit (UGC_NAME_TO_INDEX name) false,
        num_acquired := (g.num_acquired + (2 ^ 32 - 1)) % 2 ^ 32 } := by
  simp [ugc_device_name_release, test_and_clear_bit, h]

/-- Releasing a name whose bit is clear changes nothing. -/
theorem release_free (g : ugc_device_group) (name : Int × Int)
    (h : g.acquiredbit (UGC_NAME_TO_INDEX name) = false) :
    ugc_device_name_release g name = g := by
  have hu : Function.update g.acquiredbit (UGC_NAME_TO_INDEX name) false = g.acquiredbit := by
    rw [← h]
    exact Function.update_eq_self _ _
  simp [ugc_device_name_release, test_and_clear_bit, h, hu]

/-- Claim C8. In a group whose counter equals the number of set bits, in which
`k` is held and no index below `k` is free, releasing the name of `k` and then
acquiring returns the name of `k` again and gives back the group as it was
before the release. -/
theorem release_then_acquire (cs : Bool) (g : ugc_device_group) (k : Fin UGC_MAX_DEVICES)
    (hcount : g.num_acquired = bits_set g.acquiredbit) (hheld : g.acquiredbit k = true)
    (hlow : ∀ j : Fin UGC_MAX_DEVICES, j < k → g.acquiredbit j = true) :
    ugc_device_name_acquire cs (ugc_device_name_release g (ugc_device_name cs k.val)) =
      some (some (ugc_device_name cs k.val), g) ∧
    UGC_NAME_TO_INDEX (ugc_device_name cs k.val) = k := by
  refine ⟨?_, name_to_index cs k⟩
  have hpos : 0 < g.num_acquired := hcount ▸ bits_set_pos_of_set g.acquiredbit k hheld
  have hle : g.num_acquired ≤ 256 := hcount ▸ bits_set_le g.acquiredbit
  have hdec : (g.num_acquired + (2 ^ 32 - 1)) % 2 ^ 32 = g.num_acquired - 1 := by omega
  have hidx : g.acquiredbit (UGC_NAME_TO_INDEX (ugc_device_name cs k.val)) = true := by
    rw [name_to_index cs k]
    exact hheld
  rw [release_held g _ hidx, name_to_index cs k, hdec]
  rw [acquire_lowest cs _ k (show g.num_acquired - 1 < 256 by omega) (by simp)
    (fun j hj => by
      have hne : j ≠ k := ne_of_lt hj
      simp only [Function.update_noteq hne]
      exact hlow j hj)]
  have hbits : Function.update (Function.update g.acquiredbit k false) k true = g.acquiredbit := by
    rw [Function.update_idem, ← hheld]
    exact Function.update_eq_self _ _
  have hnum : g.num_acquired - 1 + 1 = g.num_acquired := by omega
  simp only [hbits, hnum]

/-- Witness for `release_then_acquire`: the full pool and the index 7. -/
theorem release_then_acquire_witness :
    (first_bits UGC_MAX_DEVICES).num_acquired = bits_set (first_bits UGC_MAX_DEVICES).acquiredbit ∧
    (first_bits UGC_MAX_DEVICES).acquiredbit 7 = true ∧
    ugc_device_name_acquire true
        (ugc_device_name_release (first_bits UGC_MAX_DEVICES) (ugc_device_name true 7)) =
      some (some (ugc_device_name true 7), first_bits UGC_MAX_DEVICES) :=
  ⟨by simp [first_bits, bits_set], by simp [first_bits],
    (release_then_acquire true (first_bits UGC_MAX_DEVICES) 7 (by simp [first_bits, bits_set])
      (by simp [first_bits]) (fun j _ => by simp [first_bits])).1⟩

/-- Claim C9. Releasing the name of an index whose bit is clear leaves the bitmap
and the counter as they were. Releasing the name of an index whose bit is set
clears exactly that bit and takes exactly one off the counter: the `unsigned
int` counter goes from `n` to `n - 1`, which for `n = 0` is the wrapped value
`2 ^ 32 - 1`. -/
theorem release_effect (cs : Bool) (g : ugc_device_group) (k : Fin UGC_MAX_DEVICES) :
    (g.acquiredbit k = false → ugc_device_name_release g (ugc_device_name cs k.val) = g) ∧
    (g.acquiredbit k = true →
      (ugc_device_name_release g (ugc_device_name cs k.val)).acquiredbit k = false ∧
      (∀ j : Fin UGC_MAX_DEVICES, j ≠ k →
        (ugc_device_name_release g (ugc_device_name cs k.val)).acquiredbit j =
          g.acquiredbit j) ∧
      ((ugc_device_name_release g (ugc_device_name cs k.val)).num_acquired + 1) % 2 ^ 32 =
        g.num_acquired % 2 ^ 32 ∧
      (ugc_device_name_release g (ugc_device_name cs k.val)).num_acquired < 2 ^ 32 ∧
      (0 < g.num_acquired → g.num_acquired < 2 ^ 32 →
        (ugc_device_name_release g (ugc_device_name cs k.val)).num_acquired =
          g.num_acquired - 1)) := by
  constructor
  · intro h
    exact release_free g _ (by rw [name_to_index cs k]; exact h)
  · intro h
    rw [release_held g _ (by rw [name_to_index cs k]; exact h), name_to_index cs k]
    refine ⟨by simp, fun j hj => by simp [Function.update_noteq hj], ?_, ?_, ?_⟩
    · simp only
      omega
    · simp only
      omega
    · intro h1 h2
      simp only
      omega

/-- Witness for `release_effect`: index 3 is free in the empty group and held in
the full pool. -/
theorem release_effect_witness :
    (g_device_group_init.acquiredbit 3 = false ∧
      ugc_device_name_release g_device_group_init (ugc_device_name false 3) =
        g_device_group_init) ∧
    ((first_bits UGC_MAX_DEVICES).acquiredbit 3 = true ∧
      (ugc_device_name_release (first_bits UGC_MAX_DEVICES)
        (ugc_device_name false 3)).num_acquired = 255) :=
  ⟨⟨rfl, (release_effect false g_device_group_init 3).1 rfl⟩,
    ⟨by simp [first_bits],
      ((release_effect false (first_bits UGC_MAX_DEVICES) 3).2 (by simp [first_bits])).2.2.2.2
        (by simp [first_bits]) (by simp [first_bits, UGC_MAX_DEVICES])⟩⟩

/-! ## The normaliser -/

/-- Evaluation of `normalize_value` when the two differences are known as
natural numbers and the product stays within 64 bits. -/
theorem normalize_value_eq (value : Nat) (minimum maximum : Int) (a d : Nat)
    (ha : (value : Int) - minimum = a) (hd : maximum - minimum = d) (hd0 : 0 < d)
    (hd64 : d < 2 ^ 64) (hprod : a * (2 ^ 32 - 1) < 2 ^ 64) :
    normalize_value value minimum maximum = some ((a * (2 ^ 32 - 1) / d) % 2 ^ 32) := by
  have ha64 : a < 2 ^ 64 := by omega
  have h1 : (((value : Int) - minimum) % 2 ^ 64).toNat = a := by
    rw [ha]; omega
  have h2 : ((maximum - minimum) % 2 ^ 64).toNat = d := by
    rw [hd]; omega
  unfold normalize_value
  simp only [h1, h2, Nat.mod_eq_of_lt hprod]
  rw [if_neg (by omega)]

/-- Claim C10 as stated fails: with `minimum = -3` and `maximum = -1` the raw
value `-1 = maximum`, passed through the `__u32` parameter, is normalised to
`2147483647` and not to `2 ^ 32 - 1`, and the raw value `-3 = minimum` is
normalised to `2147483648` and not to `0`. -/
theorem normalize_value_endpoints_counterexample :
    ((-3 : Int) < -1) ∧
    normalize_value (u32_of_int (-1)) (-3) (-1) = some 2147483647 ∧
    normalize_value (u32_of_int (-1)) (-3) (-1) ≠ some (2 ^ 32 - 1) ∧
    normalize_value (u32_of_int (-3)) (-3) (-1) = some 2147483648 ∧
    normalize_value (u32_of_int (-3)) (-3) (-1) ≠ some 0 := by
  refine ⟨by decide, by decide, by decide, by decide, by decide⟩

/-- Claim C10, amended. For signed 32-bit `minimum < maximum`: when `maximum` is
not negative, `normalize_value` applied to `raw = maximum` returns `2 ^ 32 - 1`;
when `minimum` is not negative, `normalize_value` applied to `raw = minimum`
returns `0`. -/
theorem normalize_value_endpoints (minimum maximum : Int)
    (hmin : -2 ^ 31 ≤ minimum) (hmax : maximum < 2 ^ 31) (hlt : minimum < maximum) :
    (0 ≤ maximum → normalize_value (u32_of_int maximum) minimum maximum = some (2 ^ 32 - 1)) ∧
    (0 ≤ minimum → normalize_value (u32_of_int minimum) minimum maximum = some 0) := by
  obtain ⟨d, hd⟩ : ∃ d : Nat, maximum - minimum = d := ⟨(maximum - minimum).toNat, by omega⟩
  have hd0 : 0 < d := by omega
  have hd32 : d < 2 ^ 32 := by omega
  constructor
  · intro h0
    have hv : ((u32_of_int maximum : Nat) : Int) = maximum := by
      unfold u32_of_int; omega
    have hprod : d * (2 ^ 32 - 1) < 2 ^ 64 := by
      have : d * (2 ^ 32 - 1) ≤ 2 ^ 32 * (2 ^ 32 - 1) := Nat.mul_le_mul_right _ (le_of_lt hd32)
      omega
    rw [normalize_value_eq _ minimum maximum d d (by rw [hv]; exact hd) hd hd0 (by omega) hprod,
      Nat.mul_div_cancel_left _ hd0]
    norm_num
  · intro h0
    have hv : ((u32_of_int minimum : Nat) : Int) = minimum := by
      unfold u32_of_int; omega
    rw [normalize_value_eq _ minimum maximum 0 d (by rw [hv]; simp) hd hd0 (by omega) (by simp)]
    simp

/-- Witness for `normalize_value_endpoints`: the range `[-5, 7]` for the upper
end and the range `[2, 7]` for the lower end. -/
theorem normalize_value_endpoints_witness :
    normalize_value (u32_of_int 7) (-5) 7 = some (2 ^ 32 - 1) ∧
    normalize_value (u32_of_int 2) 2 7 = some 0 :=
  ⟨(normalize_value_endpoints (-5) 7 (by decide) (by decide) (by decide)).1 (by decide),
    (normalize_value_endpoints 2 7 (by decide) (by decide) (by decide)).2 (by decide)⟩

/-! ## Lemmas on the binding directory and on single events -/

theorem ugc_input_compare_eq_zero_iff (a b : ugc_input) :
    ugc_input_compare a b = 0 ↔
      a.type = b.type ∧ a.code = b.code ∧ a.positive = b.positive := by
  unfold ugc_input_compare
  split_ifs <;> simp_all <;> omega

theorem ugc_input_compare_comm_zero (a b : ugc_input) :
    ugc_input_compare a b = 0 ↔ ugc_input_compare b a = 0 := by
  rw [ugc_input_compare_eq_zero_iff, ugc_input_compare_eq_zero_iff]
  constructor <;> rintro ⟨h1, h2, h3⟩ <;> exact ⟨h1.symm, h2.symm, h3.symm⟩

/-- Writing a node that is not linked does not change what a search finds. -/
theorem ugc_input_search_update (root : List (Fin UGC_MAX_INPUTS))
    (nodes : Fin UGC_MAX_INPUTS → ugc_input) (n0 : Fin UGC_MAX_INPUTS) (x key : ugc_input)
    (h : n0 ∉ root) :
    ugc_input_search root (Function.update nodes n0 x) key = ugc_input_search root nodes key := by
  induction root with
  | nil => rfl
  | cons n rest ih =>
    have hn : n ≠ n0 := fun e => h (by simp [e])
    have hrest : n0 ∉ rest := fun e => h (by simp [e])
    have ih1 := ih hrest
    unfold ugc_input_search at ih1 ⊢
    simp only [List.find?_cons, Function.update_noteq hn, ih1]

/-- An event whose type is neither `EV_REL` nor `EV_KEY` is not looked at. -/
theorem ugc_event_other_type (d : ugc_device) (type code : Nat) (value : Int)
    (ht : ¬ (type = EV_REL ∨ type = EV_KEY)) : ugc_event d type code value = some d := by
  unfold ugc_event
  rw [if_neg ht]

/-- A key event of value 1 is built into a full-scale positive input. -/
theorem ugc_event_this_input_key_press (dev : input_dev) (code : Nat) :
    ugc_event_this_input dev EV_KEY code 1 =
      some { type := EV_KEY, code := code, positive := true, value := 2 ^ 32 - 1 } := by
  have h : normalize_value (u32_of_int 1) 0 1 = some (2 ^ 32 - 1) := by decide
  simp [ugc_event_this_input, EV_KEY, EV_REL, h]

/-- While `CONNECTED`, a press whose identity differs from `last_input` is
remembered and counted once. -/
theorem ugc_event_connected_other (d : ugc_device) (type code : Nat) (value : Int)
    (inp : ugc_input) (ht : type = EV_REL ∨ type = EV_KEY)
    (hin : ugc_event_this_input d.dev type code value = some inp)
    (hs : d.config_state = ugc_config_state.CONNECTED)
    (hp : g_UGC_MIN_PRESSED_VALUE ≤ inp.value)
    (hne : ugc_input_compare d.last_input inp ≠ 0) :
    ugc_event d type code value = some { d with last_input := inp, count := 1 } := by
  unfold ugc_event
  simp [ht, hin, hs, hp, hne]

/-- While `CONNECTED`, a press whose identity equals `last_input` adds one to
the count, as long as the count does not reach 10. -/
theorem ugc_event_connected_same (d : ugc_device) (type code : Nat) (value : Int)
    (inp : ugc_input) (ht : type = EV_REL ∨ type = EV_KEY)
    (hin : ugc_event_this_input d.dev type code value = some inp)
    (hs : d.config_state = ugc_config_state.CONNECTED)
    (hp : g_UGC_MIN_PRESSED_VALUE ≤ inp.value)
    (heq : ugc_input_compare d.last_input inp = 0) (hc : d.count + 1 < 10) :
    ugc_event d type code value = some { d with count := d.count + 1 } := by
  have hm : (d.count + 1) % 4294967296 = d.count + 1 := by omega
  have h10 : d.count + 1 ≠ 10 := by omega
  unfold ugc_event
  simp [ht, hin, hs, hp, heq, hm, h10]

/-- While `CONNECTED`, the press that brings the count to 10 starts the
configuration and resets the count. -/
theorem ugc_event_connected_tenth (d : ugc_device) (type code : Nat) (value : Int)
    (inp : ugc_input) (ht : type = EV_REL ∨ type = EV_KEY)
    (hin : ugc_event_this_input d.dev type code value = some inp)
    (hs : d.config_state = ugc_config_state.CONNECTED)
    (hp : g_UGC_MIN_PRESSED_VALUE ≤ inp.value)
    (heq : ugc_input_compare d.last_input inp = 0) (hc : d.count = 9) :
    ugc_event d type code value =
      some { d with config_state := ugc_config_state.CONFIGURING, count := 0 } := by
  unfold ugc_event
  simp [ht, hin, hs, hp, heq, hc]

/-- While `CONFIGURING`, a press that is already bound, or that repeats
`last_input` before anything was learned, changes nothing. -/
theorem ugc_event_configuring_skip (d : ugc_device) (type code : Nat) (value : Int)
    (inp : ugc_input) (ht : type = EV_REL ∨ type = EV_KEY)
    (hin : ugc_event_this_input d.dev type code value = some inp)
    (hs : d.config_state = ugc_config_state.CONFIGURING)
    (hskip : (ugc_input_search d.input_code_to_index d.input_nodes inp).isSome ∨
      (d.count = 0 ∧ ugc_input_compare d.last_input inp = 0)) :
    ugc_event d type code value = some d := by
  unfold ugc_event
  by_cases hp : g_UGC_MIN_PRESSED_VALUE ≤ inp.value
  · have hskip1 : (ugc_input_search d.input_code_to_index d.input_nodes inp).isSome = true ∨
        (d.count = 0 ∧ decide (ugc_input_compare d.last_input inp = 0) = true) := by
      rcases hskip with h | ⟨h1, h2⟩
      · exact Or.inl h
      · exact Or.inr ⟨h1, by simp [h2]⟩
    simp only [ht, hin, hs, hp, if_true, ne_eq, reduceCtorEq, not_false_eq_true, and_self,
      if_false, if_pos hskip1]
  · simp [ht, hin, hs, hp]

/-- While `CONFIGURING`, a press of an identity that is not bound yet (and that
is not the repeat of `last_input` before anything was learned) is written to
the node `input_nodes[count]`, linked with logical index `count`, and counted;
if its identity is that of `last_input` the device becomes `READY`. -/
theorem ugc_event_configuring_learn (d : ugc_device) (type code : Nat) (value : Int)
    (inp : ugc_input) (ht : type = EV_REL ∨ type = EV_KEY)
    (hin : ugc_event_this_input d.dev type code value = some inp)
    (hs : d.config_state = ugc_config_state.CONFIGURING)
    (hp : g_UGC_MIN_PRESSED_VALUE ≤ inp.value)
    (hnew : ugc_input_search d.input_code_to_index d.input_nodes inp = none)
    (hfirst : ¬ (d.count = 0 ∧ ugc_input_compare d.last_input inp = 0))
    (hc : d.count < UGC_MAX_INPUTS)
    (hfree : (⟨d.count, hc⟩ : Fin UGC_MAX_INPUTS) ∉ d.input_code_to_index)
    (hlen : d.input_code_to_index.length < UGC_MAX_INPUTS) :
    ugc_event d type code value =
      some { d with
        input_nodes := Function.update d.input_nodes ⟨d.count, hc⟩ { inp with value := d.count }
        input_code_to_index := d.input_code_to_index ++ [⟨d.count, hc⟩]
        count := d.count + 1
        config_state :=
          if ugc_input_compare d.last_input inp = 0 then ugc_config_state.READY
          else ugc_config_state.CONFIGURING } := by
  have hm : (d.count + 1) % 2 ^ 32 = d.count + 1 := by
    have : d.count < 50 := hc
    omega
  have hskip : ¬ ((ugc_input_search d.input_code_to_index d.input_nodes inp).isSome = true ∨
      (d.count = 0 ∧ decide (ugc_input_compare d.last_input inp = 0) = true)) := by
    rw [hnew]
    simpa using hfirst
  have hins : ugc_input_insert d.input_code_to_index
      (Function.update d.input_nodes ⟨d.count, hc⟩ { inp with value := d.count })
      ⟨d.count, hc⟩ = (true, d.input_code_to_index ++ [⟨d.count, hc⟩]) := by
    have hs1 : ugc_input_search d.input_code_to_index
        (Function.update d.input_nodes ⟨d.count, hc⟩ { inp with value := d.count })
        { inp with value := d.count } = none := by
      rw [ugc_input_search_update _ _ _ _ _ hfree]
      exact hnew
    unfold ugc_input_insert
    rw [Function.update_same, hs1]
    simp only [Option.isSome_none, Bool.false_eq_true, false_or]
    rw [if_neg (by omega)]
  unfold ugc_event
  simp only [ht, hin, hs, hp, if_true, ne_eq, reduceCtorEq, not_false_eq_true, and_self,
    if_false, if_neg hskip, dif_pos hc, hins, hm]
  by_cases hterm : ugc_input_compare d.last_input inp = 0 <;> simp [hterm]

/-- While `READY`, an event of an identity that is not bound changes nothing. -/
theorem ugc_event_ready_unbound (d : ugc_device) (type code : Nat) (value : Int)
    (inp : ugc_input) (ht : type = EV_REL ∨ type = EV_KEY)
    (hin : ugc_event_this_input d.dev type code value = some inp)
    (hs : d.config_state = ugc_config_state.READY)
    (hnew : ugc_input_search d.input_code_to_index d.input_nodes inp = none) :
    ugc_event d type code value = some d := by
  unfold ugc_event
  simp [ht, hin, hs, hnew]

/-- While `READY`, an event of a bound identity stores its magnitude at the
logical index kept in the node that was found. -/
theorem ugc_event_ready_found (d : ugc_device) (type code : Nat) (value : Int)
    (inp : ugc_input) (node : Fin UGC_MAX_INPUTS) (ht : type = EV_REL ∨ type = EV_KEY)
    (hin : ugc_event_this_input d.dev type code value = some inp)
    (hs : d.config_state = ugc_config_state.READY)
    (hfound : ugc_input_search d.input_code_to_index d.input_nodes inp = some node)
    (hi : (d.input_nodes node).value < UGC_MAX_INPUTS) :
    ugc_event d type code value =
      some { d with
        input_state :=
          Function.update d.input_state ⟨(d.input_nodes node).value, hi⟩ inp.value } := by
  unfold ugc_event
  simp [ht, hin, hs, hfound, hi]

theorem ugc_events_append (d : ugc_device) (es1 es2 : List ugc_raw_event) :
    ugc_events d (es1 ++ es2) =
      match ugc_events d es1 with
      | none => none
      | some d1 => ugc_events d1 es2 := by
  induction es1 generalizing d with
  | nil => rfl
  | cons e es ih =>
    simp only [List.cons_append, ugc_events]
    cases ugc_event d e.type e.code e.value with
    | none => rfl
    | some d1 => exact ih d1

theorem event_input_key_press (dev : input_dev) (code : Nat) :
    event_input dev (key_press code) (key_input code) :=
  ⟨Or.inr rfl, ugc_event_this_input_key_press dev code⟩

theorem key_input_pressed (code : Nat) : g_UGC_MIN_PRESSED_VALUE ≤ (key_input code).value := by
  show g_UGC_MIN_PRESSED_VALUE ≤ 2 ^ 32 - 1
  decide

theorem ugc_events_cons (d : ugc_device) (e : ugc_raw_event) (es : List ugc_raw_event)
    (d1 : ugc_device) (h : ugc_event d e.type e.code e.value = some d1) :
    ugc_events d (e :: es) = ugc_events d1 es := by
  rw [ugc_events, h]

/-- Presses of one key on a `CONNECTED` device that already remembers that key:
the count goes up by one for each press, up to 9. -/
theorem ugc_events_key_repeat (d : ugc_device) (code : Nat)
    (hs : d.config_state = ugc_config_state.CONNECTED) :
    ∀ (m k : Nat), k + m ≤ 9 →
      ugc_events { d with last_input := key_input code, count := k }
          (List.replicate m (key_press code)) =
        some { d with last_input := key_input code, count := k + m } := by
  intro m
  induction m with
  | zero => intro k _; rfl
  | succ m ih =>
    intro k hk
    have hstep := ugc_event_connected_same
      { d with last_input := key_input code, count := k }
      EV_KEY code 1 (key_input code) (Or.inr rfl) (ugc_event_this_input_key_press d.dev code) hs
      (key_input_pressed code) ((ugc_input_compare_eq_zero_iff _ _).2 ⟨rfl, rfl, rfl⟩)
      (show k + 1 < 10 by omega)
    rw [List.replicate_succ, ugc_events_cons _ _ _ _ hstep]
    have hk1 : k + (m + 1) = k + 1 + m := by omega
    rw [hk1]
    exact ih (k + 1) (by omega)

/-- The first press of a key on a `CONNECTED` device whose `last_input` is
zeroed. -/
theorem ugc_event_first_key_press (d : ugc_device) (code : Nat)
    (hs : d.config_state = ugc_config_state.CONNECTED)
    (hl : d.last_input = { type := 0, code := 0, positive := false, value := 0 }) :
    ugc_event d EV_KEY code 1 = some { d with last_input := key_input code, count := 1 } :=
  ugc_event_connected_other d EV_KEY code 1 (key_input code)
    (Or.inr rfl) (ugc_event_this_input_key_press d.dev code) hs (key_input_pressed code)
    (by
      rw [Ne, ugc_input_compare_eq_zero_iff, hl]
      rintro ⟨h, -, -⟩
      exact absurd h (show (0 : Nat) ≠ 1 by decide))

/-- The state of a `CONNECTED` device with zeroed `last_input` after `n` presses
of one key, for `n` from 1 to 9. -/
theorem ugc_events_key_presses (d : ugc_device) (code n : Nat)
    (hs : d.config_state = ugc_config_state.CONNECTED)
    (hl : d.last_input = { type := 0, code := 0, positive := false, value := 0 })
    (h1 : 1 ≤ n) (h9 : n ≤ 9) :
    ugc_events d (List.replicate n (key_press code)) =
      some { d with last_input := key_input code, count := n } := by
  obtain ⟨m, rfl⟩ : ∃ m, n = m + 1 := ⟨n - 1, by omega⟩
  rw [List.replicate_succ,
    ugc_events_cons _ (key_press code) _ _ (ugc_event_first_key_press d code hs hl),
    ugc_events_key_repeat d code hs m 1 (by omega), Nat.add_comm 1 m]

/-! ## The learning state machine -/

/-- Claim C1. On a freshly connected device (`CONNECTED`, zeroed `last_input`;
the count it starts from, 0, plays no part), after `n` consecutive presses of a
key `code` (raw value 1) with `1 ≤ n ≤ 9` the device is still `CONNECTED`, its
count is `n` and `last_input` has the identity of the key; after the 10th press
the device is `CONFIGURING` with count 0 and the same `last_input` identity. -/
theorem learning_threshold (d : ugc_device) (code n : Nat)
    (hs : d.config_state = ugc_config_state.CONNECTED)
    (hl : d.last_input = { type := 0, code := 0, positive := false, value := 0 })
    (h1 : 1 ≤ n) (h9 : n ≤ 9) :
    (∃ d1 : ugc_device,
      ugc_events d (List.replicate n (key_press code)) = some d1 ∧
      d1.config_state = ugc_config_state.CONNECTED ∧ d1.count = n ∧
      d1.last_input.type = EV_KEY ∧ d1.last_input.code = code ∧
      d1.last_input.positive = true) ∧
    (∃ d2 : ugc_device,
      ugc_events d (List.replicate 10 (key_press code)) = some d2 ∧
      d2.config_state = ugc_config_state.CONFIGURING ∧ d2.count = 0 ∧
      d2.last_input.type = EV_KEY ∧ d2.last_input.code = code ∧
      d2.last_input.positive = true) := by
  constructor
  · exact ⟨_, ugc_events_key_presses d code n hs hl h1 h9, hs, rfl, rfl, rfl, rfl⟩
  · have h9 := ugc_events_key_presses d code 9 hs hl (by omega) (by omega)
    have htenth := ugc_event_connected_tenth
      { d with last_input := key_input code, count := 9 }
      EV_KEY code 1 (key_input code) (Or.inr rfl) (ugc_event_this_input_key_press d.dev code) hs
      (key_input_pressed code) ((ugc_input_compare_eq_zero_iff _ _).2 ⟨rfl, rfl, rfl⟩) rfl
    have h10 := (ugc_events_cons _ (key_press code) [] _ htenth).trans rfl
    have hall : ugc_events d (List.replicate 10 (key_press code)) =
        some { d with
          config_state := ugc_config_state.CONFIGURING, count := 0,
          last_input := key_input code } := by
      rw [show (10 : Nat) = 9 + 1 from rfl, List.replicate_succ', ugc_events_append, h9]
      exact h10
    exact ⟨_, hall, rfl, rfl, rfl, rfl, rfl⟩

/-- Witness for `learning_threshold`: four presses, then ten presses, of key 5
on the record stored by `ugc_connect_device`. -/
theorem learning_threshold_witness :
    (∃ d1 : ugc_device,
      ugc_events (ugc_device_connected dev_example) (List.replicate 4 (key_press 5)) = some d1 ∧
      d1.config_state = ugc_config_state.CONNECTED ∧ d1.count = 4 ∧
      d1.last_input.type = EV_KEY ∧ d1.last_input.code = 5 ∧
      d1.last_input.positive = true) ∧
    (∃ d2 : ugc_device,
      ugc_events (ugc_device_connected dev_example) (List.replicate 10 (key_press 5)) = some d2 ∧
      d2.config_state = ugc_config_state.CONFIGURING ∧ d2.count = 0 ∧
      d2.last_input.type = EV_KEY ∧ d2.last_input.code = 5 ∧
      d2.last_input.positive = true) :=
  learning_threshold (ugc_device_connected dev_example) 5 4 rfl rfl (by decide) (by decide)

/-- Claim C2 as stated fails: a device that entered `CONFIGURING` through ten
presses of key 5 and then sees presses of keys 6, 7 and 5 becomes `READY` with
three bindings, `6 -> 0`, `7 -> 1` and `5 -> 2`: the terminal key 5 is bound too,
to the logical index 2, so the directory is not `{6 -> 0, 7 -> 1}`. -/
theorem learn_three_counterexample :
    ugc_events (ugc_device_connected dev_example) (List.replicate 10 (key_press 5)) =
      some configuring_example ∧
    ∃ d : ugc_device,
      ugc_events configuring_example [key_press 6, key_press 7, key_press 5] = some d ∧
      d.config_state = ugc_config_state.READY ∧
      bindings d = [{ key_input 6 with value := 0 }, { key_input 7 with value := 1 },
        { key_input 5 with value := 2 }] ∧
      bindings d ≠ [{ key_input 6 with value := 0 }, { key_input 7 with value := 1 }] ∧
      (ugc_input_search d.input_code_to_index d.input_nodes (key_input 5)).map
        (fun node => (d.input_nodes node).value) = some 2 :=
  ⟨rfl, _, rfl, rfl, by decide, by decide, by decide⟩

/-- Claim C2, amended. A device that has just entered `CONFIGURING` through `X`
(count 0, `last_input` with the identity of `X`, empty directory) and is fed
press-like events of pairwise distinct identities `A`, `B`, `X` ends `READY`
with count 3 and with the directory `{A -> 0, B -> 1, X -> 2}`: the terminal
identity is bound as the last logical index. -/
theorem learn_three (d : ugc_device) (eA eB eX : ugc_raw_event) (iA iB iX : ugc_input)
    (hs : d.config_state = ugc_config_state.CONFIGURING) (hc : d.count = 0)
    (hroot : d.input_code_to_index = [])
    (hlast : ugc_input_compare d.last_input iX = 0)
    (hA : event_input d.dev eA iA) (hpA : g_UGC_MIN_PRESSED_VALUE ≤ iA.value)
    (hB : event_input d.dev eB iB) (hpB : g_UGC_MIN_PRESSED_VALUE ≤ iB.value)
    (hX : event_input d.dev eX iX) (hpX : g_UGC_MIN_PRESSED_VALUE ≤ iX.value)
    (hXA : ugc_input_compare iX iA ≠ 0) (hXB : ugc_input_compare iX iB ≠ 0)
    (hAB : ugc_input_compare iA iB ≠ 0) :
    ∃ d3 : ugc_device,
      ugc_events d [eA, eB, eX] = some d3 ∧
      d3.config_state = ugc_config_state.READY ∧ d3.count = 3 ∧
      bindings d3 =
        [{ iA with value := 0 }, { iB with value := 1 }, { iX with value := 2 }] := by
  obtain ⟨dev, st, cnt, last, nodes, root, state⟩ := d
  simp only at hs hc hroot hlast hA hB hX
  subst hs hc hroot
  rw [ugc_input_compare_eq_zero_iff] at hlast
  rw [Ne, ugc_input_compare_eq_zero_iff] at hXA hXB hAB
  obtain ⟨hl1, hl2, hl3⟩ := hlast
  have hnotA : ¬ ugc_input_compare last iA = 0 := by
    rw [ugc_input_compare_eq_zero_iff]
    exact fun h => hXA ⟨hl1 ▸ h.1, hl2 ▸ h.2.1, hl3 ▸ h.2.2⟩
  have hnotB : ¬ ugc_input_compare last iB = 0 := by
    rw [ugc_input_compare_eq_zero_iff]
    exact fun h => hXB ⟨hl1 ▸ h.1, hl2 ▸ h.2.1, hl3 ▸ h.2.2⟩
  have hisX : ugc_input_compare last iX = 0 :=
    (ugc_input_compare_eq_zero_iff _ _).2 ⟨hl1, hl2, hl3⟩
  have hAB1 : ¬ ugc_input_compare { iA with value := 0 } iB = 0 := by
    rw [ugc_input_compare_eq_zero_iff]
    exact hAB
  have hAX : ¬ ugc_input_compare { iA with value := 0 } iX = 0 := by
    rw [ugc_input_compare_eq_zero_iff]
    exact fun h => hXA ⟨h.1.symm, h.2.1.symm, h.2.2.symm⟩
  have hBX : ¬ ugc_input_compare { iB with value := 1 } iX = 0 := by
    rw [ugc_input_compare_eq_zero_iff]
    exact fun h => hXB ⟨h.1.symm, h.2.1.symm, h.2.2.symm⟩
  have b0 : (0 : Nat) < UGC_MAX_INPUTS := by decide
  have b1 : (1 : Nat) < UGC_MAX_INPUTS := by decide
  have b2 : (2 : Nat) < UGC_MAX_INPUTS := by decide
  have h01 : (⟨0, b0⟩ : Fin UGC_MAX_INPUTS) ≠ ⟨1, b1⟩ :=
    fun h => absurd (congrArg Fin.val h) (show (0 : Nat) ≠ 1 by decide)
  have h02 : (⟨0, b0⟩ : Fin UGC_MAX_INPUTS) ≠ ⟨2, b2⟩ :=
    fun h => absurd (congrArg Fin.val h) (show (0 : Nat) ≠ 2 by decide)
  have h12 : (⟨1, b1⟩ : Fin UGC_MAX_INPUTS) ≠ ⟨2, b2⟩ :=
    fun h => absurd (congrArg Fin.val h) (show (1 : Nat) ≠ 2 by decide)
  -- the press of `A`
  have h1 : ugc_event ⟨dev, ugc_config_state.CONFIGURING, 0, last, nodes, [], state⟩
      eA.type eA.code eA.value =
      some ⟨dev, ugc_config_state.CONFIGURING, 1, last,
        Function.update nodes ⟨0, b0⟩ { iA with value := 0 }, [⟨0, b0⟩], state⟩ := by
    rw [ugc_event_configuring_learn
      ⟨dev, ugc_config_state.CONFIGURING, 0, last, nodes, [], state⟩
      eA.type eA.code eA.value iA hA.1 hA.2 rfl hpA rfl
      (fun h => hnotA h.2) b0 (by simp) (by simp)]
    simp [hnotA]
  -- the press of `B`
  have h2 : ugc_event ⟨dev, ugc_config_state.CONFIGURING, 1, last,
        Function.update nodes ⟨0, b0⟩ { iA with value := 0 }, [⟨0, b0⟩], state⟩
      eB.type eB.code eB.value =
      some ⟨dev, ugc_config_state.CONFIGURING, 2, last,
        Function.update (Function.update nodes ⟨0, b0⟩ { iA with value := 0 }) ⟨1, b1⟩
          { iB with value := 1 },
        [⟨0, b0⟩, ⟨1, b1⟩], state⟩ := by
    rw [ugc_event_configuring_learn
      ⟨dev, ugc_config_state.CONFIGURING, 1, last,
        Function.update nodes ⟨0, b0⟩ { iA with value := 0 }, [⟨0, b0⟩], state⟩
      eB.type eB.code eB.value iB hB.1 hB.2 rfl hpB
      (by simp [ugc_input_search, hAB1])
      (fun h => absurd h.1 (by simp)) b1 (by simp) (by simp)]
    simp [hnotB]
  -- the press of `X`
  have h3 : ugc_event ⟨dev, ugc_config_state.CONFIGURING, 2, last,
        Function.update (Function.update nodes ⟨0, b0⟩ { iA with value := 0 }) ⟨1, b1⟩
          { iB with value := 1 },
        [⟨0, b0⟩, ⟨1, b1⟩], state⟩
      eX.type eX.code eX.value =
      some ⟨dev, ugc_config_state.READY, 3, last,
        Function.update
          (Function.update (Function.update nodes ⟨0, b0⟩ { iA with value := 0 }) ⟨1, b1⟩
            { iB with value := 1 }) ⟨2, b2⟩ { iX with value := 2 },
        [⟨0, b0⟩, ⟨1, b1⟩, ⟨2, b2⟩], state⟩ := by
    rw [ugc_event_configuring_learn
      ⟨dev, ugc_config_state.CONFIGURING, 2, last,
        Function.update (Function.update nodes ⟨0, b0⟩ { iA with value := 0 }) ⟨1, b1⟩
          { iB with value := 1 },
        [⟨0, b0⟩, ⟨1, b1⟩], state⟩
      eX.type eX.code eX.value iX hX.1 hX.2 rfl hpX
      (by simp [ugc_input_search, Function.update_noteq h01, hAX, hBX])
      (fun h => absurd h.1 (by simp)) b2
      (by
        rw [List.mem_cons, List.mem_singleton]
        rintro (h | h)
        · exact h02 h.symm
        · exact h12 h.symm)
      (show (2 : Nat) < 50 by decide)]
    simp [hisX]
  refine ⟨_, (by
    rw [ugc_events_cons _ eA _ _ h1, ugc_events_cons _ eB _ _ h2, ugc_events_cons _ eX _ _ h3]
    rfl), rfl, rfl, ?_⟩
  · simp only [bindings, List.map, Function.update_same, Function.update_noteq h02,
      Function.update_noteq h12, Function.update_noteq h01]

/-- Witness for `learn_three`: entered through key 5, then keys 6, 7 and 5. -/
theorem learn_three_witness :
    ∃ d3 : ugc_device,
      ugc_events configuring_example [key_press 6, key_press 7, key_press 5] = some d3 ∧
      d3.config_state = ugc_config_state.READY ∧ d3.count = 3 ∧
      bindings d3 = [{ key_input 6 with value := 0 }, { key_input 7 with value := 1 },
        { key_input 5 with value := 2 }] :=
  learn_three configuring_example (key_press 6) (key_press 7) (key_press 5)
    (key_input 6) (key_input 7) (key_input 5) rfl rfl rfl (by decide)
    (event_input_key_press dev_example 6) (key_input_pressed 6)
    (event_input_key_press dev_example 7) (key_input_pressed 7)
    (event_input_key_press dev_example 5) (key_input_pressed 5)
    (by decide) (by decide) (by decide)

/-- Claim C3. On a `READY` device, an event that is built into the input `inp`
(press-like or not): if the directory binds the identity of `inp` to the logical
index `i`, the event sets `input_state[i]` to the magnitude of `inp` and leaves
every other entry of `input_state` as it was; if the identity of `inp` is not in
the directory, the event leaves the record, and so the whole of `input_state`,
as it was. -/
theorem ready_resolution (d : ugc_device) (e : ugc_raw_event) (inp : ugc_input)
    (hs : d.config_state = ugc_config_state.READY) (hev : event_input d.dev e inp) :
    (∀ (node i : Fin UGC_MAX_INPUTS),
      ugc_input_search d.input_code_to_index d.input_nodes inp = some node →
      (d.input_nodes node).value = i.val →
      ∃ d1 : ugc_device,
        ugc_event d e.type e.code e.value = some d1 ∧
        d1.input_state i = inp.value ∧
        ∀ j : Fin UGC_MAX_INPUTS, j ≠ i → d1.input_state j = d.input_state j) ∧
    (ugc_input_search d.input_code_to_index d.input_nodes inp = none →
      ugc_event d e.type e.code e.value = some d) := by
  constructor
  · intro node i hfound hval
    obtain ⟨iv, hiv⟩ := i
    simp only at hval
    subst hval
    refine ⟨_, ugc_event_ready_found d e.type e.code e.value inp node hev.1 hev.2 hs hfound hiv,
      ?_, ?_⟩
    · exact Function.update_same _ _ _
    · intro j hj
      exact Function.update_noteq hj _ _
  · intro hnone
    exact ugc_event_ready_unbound d e.type e.code e.value inp hev.1 hev.2 hs hnone

/-- Witness for `ready_resolution`: with key 6 bound to index 0, the release of
key 6 stores the magnitude 0 at index 0, and the press of key 9, which is not
bound, changes nothing. -/
theorem ready_resolution_witness :
    (∃ d1 : ugc_device,
      ugc_event ready_example EV_KEY 6 0 = some d1 ∧
      d1.input_state 0 = 0 ∧
      ∀ j : Fin UGC_MAX_INPUTS, j ≠ 0 → d1.input_state j = ready_example.input_state j) ∧
    ugc_event ready_example EV_KEY 9 1 = some ready_example :=
  ⟨(ready_resolution ready_example (key_release 6) { key_input 6 with value := 0 } rfl
      ⟨Or.inr rfl, by decide⟩).1 0 0 (by decide) (by decide),
    (ready_resolution ready_example (key_press 9) (key_input 9) rfl
      (event_input_key_press dev_example 9)).2 (by decide)⟩

/-- Claim C4. On a `CONFIGURING` device whose directory already contains the
identity of the input `inp`, a press-like event built into `inp` is ignored: the
record is unchanged, so the directory still has its one entry for that identity
with its logical index, the count does not advance and the state stays
`CONFIGURING`. (The same holds for an event that is not press-like.) -/
theorem duplicate_ignored (d : ugc_device) (e : ugc_raw_event) (inp : ugc_input)
    (node : Fin UGC_MAX_INPUTS)
    (hs : d.config_state = ugc_config_state.CONFIGURING) (hev : event_input d.dev e inp)
    (hbound : ugc_input_search d.input_code_to_index d.input_nodes inp = some node) :
    ∃ d1 : ugc_device,
      ugc_event d e.type e.code e.value = some d1 ∧
      d1.input_code_to_index = d.input_code_to_index ∧ d1.input_nodes = d.input_nodes ∧
      bindings d1 = bindings d ∧ d1.count = d.count ∧
      d1.config_state = ugc_config_state.CONFIGURING ∧ d1 = d := by
  refine ⟨d, ?_, rfl, rfl, rfl, rfl, hs, rfl⟩
  exact ugc_event_configuring_skip d e.type e.code e.value inp hev.1 hev.2 hs
    (Or.inl (by rw [hbound]; rfl))

/-- Witness for `duplicate_ignored`: key 6 is bound and pressed again while the
device is still `CONFIGURING`. -/
theorem duplicate_ignored_witness :
    ∃ d1 : ugc_device,
      ugc_event { ready_example with config_state := ugc_config_state.CONFIGURING }
        EV_KEY 6 1 = some d1 ∧
      d1.input_code_to_index = [0] ∧ d1.input_nodes = ready_example.input_nodes ∧
      bindings d1 = [{ key_input 6 with value := 0 }] ∧ d1.count = 1 ∧
      d1.config_state = ugc_config_state.CONFIGURING ∧
      d1 = { ready_example with config_state := ugc_config_state.CONFIGURING } :=
  duplicate_ignored { ready_example with config_state := ugc_config_state.CONFIGURING }
    (key_press 6) (key_input 6) 0 rfl (event_input_key_press dev_example 6) (by decide)

/-- Claim C5. On a `CONFIGURING` device with count 0 and an empty directory, any
number of press-like events whose identity is that of `last_input` are ignored:
the record is unchanged, so the state stays `CONFIGURING`, the count stays 0 and
the directory stays empty. -/
theorem first_input_not_terminal (d : ugc_device) (es : List ugc_raw_event)
    (hs : d.config_state = ugc_config_state.CONFIGURING) (hc : d.count = 0)
    (hroot : d.input_code_to_index = [])
    (hall : ∀ e ∈ es, ∃ inp : ugc_input, event_input d.dev e inp ∧
      g_UGC_MIN_PRESSED_VALUE ≤ inp.value ∧ ugc_input_compare d.last_input inp = 0) :
    ∃ d1 : ugc_device,
      ugc_events d es = some d1 ∧ d1.config_state = ugc_config_state.CONFIGURING ∧
      d1.count = 0 ∧ d1.input_code_to_index = [] ∧ bindings d1 = [] ∧ d1 = d := by
  refine ⟨d, ?_, hs, hc, hroot, by simp [bindings, hroot], rfl⟩
  induction es with
  | nil => rfl
  | cons e es ih =>
    obtain ⟨inp, hev, -, hterm⟩ := hall e (List.mem_cons_self e es)
    rw [ugc_events_cons d e es d
      (ugc_event_configuring_skip d e.type e.code e.value inp hev.1 hev.2 hs
        (Or.inr ⟨hc, hterm⟩))]
    exact ih (fun e1 he1 => hall e1 (List.mem_cons_of_mem e he1))

/-- Witness for `first_input_not_terminal`: three further presses of key 5 right
after the device entered `CONFIGURING` through key 5. -/
theorem first_input_not_terminal_witness :
    ∃ d1 : ugc_device,
      ugc_events configuring_example (List.replicate 3 (key_press 5)) = some d1 ∧
      d1.config_state = ugc_config_state.CONFIGURING ∧
      d1.count = 0 ∧ d1.input_code_to_index = [] ∧ bindings d1 = [] ∧
      d1 = configuring_example :=
  first_input_not_terminal configuring_example (List.replicate 3 (key_press 5)) rfl rfl rfl
    (fun e he => by
      rw [List.eq_of_mem_replicate he]
      exact ⟨key_input 5, event_input_key_press dev_example 5, key_input_pressed 5,
        by decide⟩)

/-! ## The normaliser: monotonicity and the reference formula -/

/-- For a raw value that is not negative and lies in `[minimum, maximum]`, the
normaliser computes the quotient of `(raw - minimum) * (2 ^ 32 - 1)` by
`maximum - minimum` without any wrap-around. -/
theorem normalize_value_floor (raw minimum maximum : Int) (a d : Nat)
    (hmin : -2 ^ 31 ≤ minimum) (hmax : maximum < 2 ^ 31) (hraw0 : 0 ≤ raw)
    (hhi : raw ≤ maximum) (ha : raw - minimum = a) (hd : maximum - minimum = d)
    (hd0 : 0 < d) :
    normalize_value (u32_of_int raw) minimum maximum = some (a * (2 ^ 32 - 1) / d) := by
  have hv : ((u32_of_int raw : Nat) : Int) = raw := by
    unfold u32_of_int; omega
  have had : a ≤ d := by omega
  have hd32 : d < 2 ^ 32 := by omega
  have hprod : a * (2 ^ 32 - 1) < 2 ^ 64 := by
    have : a * (2 ^ 32 - 1) ≤ 2 ^ 32 * (2 ^ 32 - 1) :=
      Nat.mul_le_mul_right _ (le_of_lt (lt_of_le_of_lt had hd32))
    omega
  have hq : a * (2 ^ 32 - 1) / d ≤ 2 ^ 32 - 1 := by
    calc a * (2 ^ 32 - 1) / d ≤ d * (2 ^ 32 - 1) / d :=
          Nat.div_le_div_right (Nat.mul_le_mul_right _ had)
      _ = 2 ^ 32 - 1 := Nat.mul_div_cancel_left _ hd0
  rw [normalize_value_eq _ minimum maximum a d (by rw [hv]; exact ha) hd hd0 (by omega) hprod,
    Nat.mod_eq_of_lt (by omega)]

/-- Claim C11 as stated fails: with `minimum = -1` and `maximum = 1` the raw
values `-1 ≤ 0` lie in the range, but `-1`, passed through the `__u32`
parameter, is normalised to `2147483648`, which is above the `2147483647`
obtained for `0`. -/
theorem normalize_value_monotone_counterexample :
    ((-1 : Int) < 1) ∧ ((-1 : Int) ≤ 0) ∧ ((0 : Int) ≤ 1) ∧
    normalize_value (u32_of_int (-1)) (-1) 1 = some 2147483648 ∧
    normalize_value (u32_of_int 0) (-1) 1 = some 2147483647 ∧
    ¬ (2147483648 ≤ 2147483647) := by
  refine ⟨by decide, by decide, by decide, by decide, by decide, by decide⟩

/-- Claim C11, amended. For signed 32-bit `minimum < maximum` and raw values
`raw1 ≤ raw2` in `[minimum, maximum]` that are not negative, the value
`normalize_value` computes for `raw1` (64-bit intermediate arithmetic,
truncation to 32 bits) is at most the one it computes for `raw2`. -/
theorem normalize_value_monotone (raw1 raw2 minimum maximum : Int)
    (hmin : -2 ^ 31 ≤ minimum) (hmax : maximum < 2 ^ 31) (hlt : minimum < maximum)
    (hlo : minimum ≤ raw1) (h12 : raw1 ≤ raw2) (hhi : raw2 ≤ maximum) (hraw0 : 0 ≤ raw1) :
    ∃ n1 n2 : Nat,
      normalize_value (u32_of_int raw1) minimum maximum = some n1 ∧
      normalize_value (u32_of_int raw2) minimum maximum = some n2 ∧ n1 ≤ n2 := by
  obtain ⟨d, hd⟩ : ∃ d : Nat, maximum - minimum = d := ⟨(maximum - minimum).toNat, by omega⟩
  obtain ⟨a1, ha1⟩ : ∃ a : Nat, raw1 - minimum = a := ⟨(raw1 - minimum).toNat, by omega⟩
  obtain ⟨a2, ha2⟩ : ∃ a : Nat, raw2 - minimum = a := ⟨(raw2 - minimum).toNat, by omega⟩
  have hd0 : 0 < d := by omega
  refine ⟨_, _,
    normalize_value_floor raw1 minimum maximum a1 d hmin hmax hraw0 (by omega) ha1 hd hd0,
    normalize_value_floor raw2 minimum maximum a2 d hmin hmax (by omega) hhi ha2 hd hd0, ?_⟩
  exact Nat.div_le_div_right (Nat.mul_le_mul_right _ (by omega))

/-- Witness for `normalize_value_monotone`: the raw values 2 and 5 in `[-3, 9]`. -/
theorem normalize_value_monotone_witness :
    ∃ n1 n2 : Nat,
      normalize_value (u32_of_int 2) (-3) 9 = some n1 ∧
      normalize_value (u32_of_int 5) (-3) 9 = some n2 ∧ n1 ≤ n2 :=
  normalize_value_monotone 2 5 (-3) 9 (by decide) (by decide) (by decide) (by decide)
    (by decide) (by decide) (by decide)

/-- Claim C12 as stated fails. For `raw = 1`, `minimum = 0`, `maximum = 4` the
exact value is `1073741823.75`, which rounds to `1073741824`, but the code
returns `1073741823`. For `raw = -1`, `minimum = -1`, `maximum = 1` the formula
gives `0`, but the code, which receives the raw value through its `__u32`
parameter, returns `2147483648`. -/
theorem normalize_value_reference_counterexample :
    normalize_reference 1 0 4 = 1073741824 ∧
    normalize_value (u32_of_int 1) 0 4 = some 1073741823 ∧
    normalize_reference (-1) (-1) 1 = 0 ∧
    normalize_value (u32_of_int (-1)) (-1) 1 = some 2147483648 := by
  refine ⟨?_, by decide, ?_, by decide⟩
  · unfold normalize_reference
    rw [round_eq, Int.floor_eq_iff]
    norm_num
  · unfold normalize_reference
    rw [round_eq, Int.floor_eq_iff]
    norm_num

/-- Claim C12, amended. For signed 32-bit `minimum < maximum` and a raw value in
`[minimum, maximum]` that is not negative, `normalize_value` returns the exact
rational value `(raw - minimum) * (2 ^ 32 - 1) / (maximum - minimum)` rounded
down to an integer. -/
theorem normalize_value_reference (raw minimum maximum : Int)
    (hmin : -2 ^ 31 ≤ minimum) (hmax : maximum < 2 ^ 31) (hlt : minimum < maximum)
    (hlo : minimum ≤ raw) (hhi : raw ≤ maximum) (hraw0 : 0 ≤ raw) :
    ∃ n : Nat,
      normalize_value (u32_of_int raw) minimum maximum = some n ∧
      (n : Int) =
        ⌊(((raw - minimum) * (2 ^ 32 - 1) : Int) : ℚ) / ((maximum - minimum : Int) : ℚ)⌋ := by
  obtain ⟨d, hd⟩ : ∃ d : Nat, maximum - minimum = d := ⟨(maximum - minimum).toNat, by omega⟩
  obtain ⟨a, ha⟩ : ∃ a : Nat, raw - minimum = a := ⟨(raw - minimum).toNat, by omega⟩
  have hd0 : 0 < d := by omega
  refine ⟨_, normalize_value_floor raw minimum maximum a d hmin hmax hraw0 hhi ha hd hd0, ?_⟩
  rw [ha, hd, Int.cast_natCast, Rat.floor_intCast_div_natCast]
  push_cast
  rfl

/-- Witness for `normalize_value_reference`: `raw = 1` in `[0, 4]`. -/
theorem normalize_value_reference_witness :
    ∃ n : Nat,
      normalize_value (u32_of_int 1) 0 4 = some n ∧
      (n : Int) = ⌊(((1 - 0) * (2 ^ 32 - 1) : Int) : ℚ) / ((4 - 0 : Int) : ℚ)⌋ :=
  normalize_value_reference 1 0 4 (by decide) (by decide) (by decide) (by decide)
    (by decide) (by decide)

/-! ## The allocator: consistency of the counter -/

theorem bits_set_update_true (addr : Fin UGC_MAX_DEVICES → Bool) (k : Fin UGC_MAX_DEVICES)
    (hk : addr k = false) : bits_set (Function.update addr k true) = bits_set addr + 1 := by
  unfold bits_set
  have hset : Finset.univ.filter (fun i => Function.update addr k true i = true) =
      insert k (Finset.univ.filter (fun i => addr i = true)) := by
    ext i
    by_cases hi : i = k
    · subst hi
      simp
    · simp [Function.update_noteq hi, hi]
  rw [hset, Finset.card_insert_of_not_mem (by simp [hk])]

theorem bits_set_update_false (addr : Fin UGC_MAX_DEVICES → Bool) (k : Fin UGC_MAX_DEVICES)
    (hk : addr k = true) : bits_set (Function.update addr k false) + 1 = bits_set addr := by
  unfold bits_set
  have hset : Finset.univ.filter (fun i => Function.update addr k false i = true) =
      (Finset.univ.filter (fun i => addr i = true)).erase k := by
    ext i
    by_cases hi : i = k
    · subst hi
      simp
    · simp [Function.update_noteq hi, hi]
  rw [hset, Finset.card_erase_of_mem (by simp [hk])]
  have hpos : 0 < (Finset.univ.filter (fun i => addr i = true)).card :=
    Finset.card_pos.mpr ⟨k, by simp [hk]⟩
  omega

/-- A bitmap with fewer than 256 set bits has a clear bit. -/
theorem exists_clear_of_bits_set_lt (addr : Fin UGC_MAX_DEVICES → Bool)
    (h : bits_set addr < UGC_MAX_DEVICES) : ∃ i : Fin UGC_MAX_DEVICES, addr i = false := by
  by_contra hno
  have hall : ∀ i : Fin UGC_MAX_DEVICES, addr i = true := by
    intro i
    by_contra hi
    exact hno ⟨i, by simpa using hi⟩
  have hcard : bits_set addr = UGC_MAX_DEVICES := by
    simp [bits_set, hall]
  omega

/-- In a group whose counter equals the number of set bits and is below 256,
`find_first_zero_bit` answers an index below 256. -/
theorem find_first_zero_bit_lt (g : ugc_device_group)
    (hcount : g.num_acquired = bits_set g.acquiredbit)
    (hlt : g.num_acquired < UGC_MAX_DEVICES) :
    find_first_zero_bit g.acquiredbit UGC_MAX_DEVICES < UGC_MAX_DEVICES := by
  obtain ⟨i, hi⟩ := exists_clear_of_bits_set_lt g.acquiredbit (hcount ▸ hlt)
  obtain ⟨k, hk, hall⟩ := exists_lowest_clear g.acquiredbit i hi
  rw [find_first_zero_bit_eq g.acquiredbit k hk hall]
  exact k.isLt

/-- Acquiring keeps the counter equal to the number of set bits, and does not
run into an out-of-bounds bit write. -/
theorem acquire_consistent (cs : Bool) (g : ugc_device_group)
    (hcount : g.num_acquired = bits_set g.acquiredbit) :
    ∃ r : Option (Int × Int) × ugc_device_group,
      ugc_device_name_acquire cs g = some r ∧
      r.2.num_acquired = bits_set r.2.acquiredbit := by
  by_cases hlt : g.num_acquired < UGC_MAX_DEVICES
  · obtain ⟨i, hi⟩ := exists_clear_of_bits_set_lt g.acquiredbit (hcount ▸ hlt)
    obtain ⟨k, hk, hall⟩ := exists_lowest_clear g.acquiredbit i hi
    refine ⟨_, acquire_lowest cs g k hlt hk hall, ?_⟩
    simp only
    rw [bits_set_update_true g.acquiredbit k hk, hcount]
  · refine ⟨(none, g), ?_, hcount⟩
    unfold ugc_device_name_acquire
    rw [if_neg hlt]

/-- Releasing keeps the counter equal to the number of set bits. -/
theorem release_consistent (g : ugc_device_group) (name : Int × Int)
    (hcount : g.num_acquired = bits_set g.acquiredbit) :
    (ugc_device_name_release g name).num_acquired =
      bits_set (ugc_device_name_release g name).acquiredbit := by
  by_cases hbit : g.acquiredbit (UGC_NAME_TO_INDEX name) = true
  · rw [release_held g name hbit]
    simp only
    have h1 := bits_set_update_false g.acquiredbit (UGC_NAME_TO_INDEX name) hbit
    have h2 := bits_set_le g.acquiredbit
    have h3 : bits_set g.acquiredbit ≤ 256 := h2
    omega
  · rw [release_free g name (by simpa using hbit)]
    exact hcount

/-- Claim C20. Every sequence of `ugc_device_name_acquire` and
`ugc_device_name_release` calls (with arbitrary names, held or not) runs from
the empty group without an out-of-bounds access and ends in a group whose
`num_acquired` equals the number of set bits of the bitmap and lies in
`0 .. 256`; and there, whenever `num_acquired < 256` (the guard of acquire), the
index found by `find_first_zero_bit` is below 256. -/
theorem allocator_consistent (cs : Bool) (calls : List allocator_call) :
    ∃ g : ugc_device_group,
      allocator_run cs calls g_device_group_init = some g ∧
      g.num_acquired = bits_set g.acquiredbit ∧
      g.num_acquired ≤ UGC_MAX_DEVICES ∧
      (g.num_acquired < UGC_MAX_DEVICES →
        find_first_zero_bit g.acquiredbit UGC_MAX_DEVICES < UGC_MAX_DEVICES) := by
  have hgen : ∀ (calls : List allocator_call) (g0 : ugc_device_group),
      g0.num_acquired = bits_set g0.acquiredbit →
      ∃ g : ugc_device_group,
        allocator_run cs calls g0 = some g ∧ g.num_acquired = bits_set g.acquiredbit := by
    intro calls
    induction calls with
    | nil => intro g0 h0; exact ⟨g0, rfl, h0⟩
    | cons c calls ih =>
      intro g0 h0
      cases c with
      | acquire =>
        obtain ⟨r, hr, hr2⟩ := acquire_consistent cs g0 h0
        obtain ⟨g, hg, hg2⟩ := ih r.2 hr2
        refine ⟨g, ?_, hg2⟩
        rw [allocator_run, hr]
        exact hg
      | release name =>
        obtain ⟨g, hg, hg2⟩ := ih _ (release_consistent g0 name h0)
        refine ⟨g, ?_, hg2⟩
        rw [allocator_run]
        exact hg
  obtain ⟨g, hg, hg2⟩ := hgen calls g_device_group_init
    (by simp [g_device_group_init, bits_set])
  exact ⟨g, hg, hg2, hg2 ▸ bits_set_le g.acquiredbit, fun hlt => find_first_zero_bit_lt g hg2 hlt⟩

/-- Witness for `allocator_consistent`: two acquisitions, the release of the
first name, the release of a name that is not held, and one more acquisition. -/
theorem allocator_consistent_witness :
    ∃ g : ugc_device_group,
      allocator_run true
        [allocator_call.acquire, allocator_call.acquire,
          allocator_call.release (ugc_device_name true 0),
          allocator_call.release (ugc_device_name true 5), allocator_call.acquire]
        g_device_group_init = some g ∧
      g.num_acquired = bits_set g.acquiredbit ∧
      g.num_acquired ≤ UGC_MAX_DEVICES ∧
      (g.num_acquired < UGC_MAX_DEVICES →
        find_first_zero_bit g.acquiredbit UGC_MAX_DEVICES < UGC_MAX_DEVICES) :=
  allocator_consistent true _

/-! ## Events that do not drive the state machine -/

/-- A key event of value 0 is built into an input of magnitude 0. -/
theorem ugc_event_this_input_key_release (dev : input_dev) (code : Nat) :
    ugc_event_this_input dev EV_KEY code 0 =
      some { type := EV_KEY, code := code, positive := true, value := 0 } := by
  have h : normalize_value (u32_of_int 0) 0 1 = some 0 := by decide
  simp [ugc_event_this_input, EV_KEY, EV_REL, h]

/-- Outside `READY`, an event whose magnitude is below the pressed threshold
changes nothing. -/
theorem ugc_event_not_pressed (d : ugc_device) (type code : Nat) (value : Int)
    (inp : ugc_input) (ht : type = EV_REL ∨ type = EV_KEY)
    (hin : ugc_event_this_input d.dev type code value = some inp)
    (hs : d.config_state ≠ ugc_config_state.READY)
    (hlow : inp.value < g_UGC_MIN_PRESSED_VALUE) :
    ugc_event d type code value = some d := by
  have hp : ¬ g_UGC_MIN_PRESSED_VALUE ≤ inp.value := not_le.mpr hlow
  unfold ugc_event
  simp [ht, hin, hs, hp]

/-- An event on which the normaliser divides by zero has no defined effect. -/
theorem ugc_event_no_input (d : ugc_device) (type code : Nat) (value : Int)
    (ht : type = EV_REL ∨ type = EV_KEY)
    (hin : ugc_event_this_input d.dev type code value = none) :
    ugc_event d type code value = none := by
  unfold ugc_event
  simp [ht, hin]

/-- While `READY`, an event of a bound identity whose node keeps a logical index
of 50 or more writes outside `input_state`. -/
theorem ugc_event_ready_outside (d : ugc_device) (type code : Nat) (value : Int)
    (inp : ugc_input) (node : Fin UGC_MAX_INPUTS) (ht : type = EV_REL ∨ type = EV_KEY)
    (hin : ugc_event_this_input d.dev type code value = some inp)
    (hs : d.config_state = ugc_config_state.READY)
    (hfound : ugc_input_search d.input_code_to_index d.input_nodes inp = some node)
    (hi : ¬ (d.input_nodes node).value < UGC_MAX_INPUTS) :
    ugc_event d type code value = none := by
  unfold ugc_event
  simp [ht, hin, hs, hfound, hi]

/-- Claim C15. For a device in `CONNECTED` or `CONFIGURING`, an event whose
normalised magnitude is below `g_UGC_MIN_PRESSED_VALUE = (2 ^ 32 - 1) / 2 =
2147483647` leaves the whole record unchanged; in particular a key release (raw
value 0) leaves it unchanged, so it never changes the repeat count. -/
theorem not_pressed_ignored (d : ugc_device) (e : ugc_raw_event) (inp : ugc_input)
    (hs : d.config_state = ugc_config_state.CONNECTED ∨
      d.config_state = ugc_config_state.CONFIGURING)
    (hev : event_input d.dev e inp) (hlow : inp.value < g_UGC_MIN_PRESSED_VALUE) :
    g_UGC_MIN_PRESSED_VALUE = 2147483647 ∧
    ugc_event d e.type e.code e.value = some d ∧
    ∀ code : Nat, ugc_event d (key_release code).type (key_release code).code
      (key_release code).value = some d := by
  have hnr : d.config_state ≠ ugc_config_state.READY := by
    rcases hs with h | h <;> rw [h] <;> decide
  refine ⟨by decide, ugc_event_not_pressed d e.type e.code e.value inp hev.1 hev.2 hnr hlow, ?_⟩
  intro code
  exact ugc_event_not_pressed d EV_KEY code 0 _ (Or.inr rfl)
    (ugc_event_this_input_key_release d.dev code) hnr
    (show (0 : Nat) < g_UGC_MIN_PRESSED_VALUE by decide)

/-- Witness for `not_pressed_ignored`: the release of key 5 right after the
device entered `CONFIGURING` through key 5. -/
theorem not_pressed_ignored_witness :
    g_UGC_MIN_PRESSED_VALUE = 2147483647 ∧
    ugc_event configuring_example EV_KEY 5 0 = some configuring_example ∧
    ∀ code : Nat, ugc_event configuring_example (key_release code).type
      (key_release code).code (key_release code).value = some configuring_example :=
  not_pressed_ignored configuring_example (key_release 5) { key_input 5 with value := 0 }
    (Or.inr rfl) ⟨Or.inr rfl, ugc_event_this_input_key_release dev_example 5⟩ (by decide)

/-- What does hold for a device in `READY`, for every type, code and value:
whenever `ugc_event` yields a record, that record is still `READY` and has the
same count, `last_input`, nodes and directory, so that only `input_state` may
differ; and `ugc_event` does yield a record when the normaliser is defined on
the event (no division by zero) and the logical indices kept in the directory
are below 50. -/
theorem ready_absorbing (d : ugc_device) (type code : Nat) (value : Int)
    (hs : d.config_state = ugc_config_state.READY) :
    (∀ d1 : ugc_device, ugc_event d type code value = some d1 →
      d1.config_state = ugc_config_state.READY ∧ d1.count = d.count ∧
      d1.last_input = d.last_input ∧ d1.input_nodes = d.input_nodes ∧
      d1.input_code_to_index = d.input_code_to_index ∧ bindings d1 = bindings d ∧
      d1.dev = d.dev) ∧
    ((ugc_event_this_input d.dev type code value).isSome = true →
      (∀ n ∈ d.input_code_to_index, (d.input_nodes n).value < UGC_MAX_INPUTS) →
      ∃ d1 : ugc_device, ugc_event d type code value = some d1) := by
  constructor
  · intro d1 h
    by_cases ht : type = EV_REL ∨ type = EV_KEY
    · cases hin : ugc_event_this_input d.dev type code value with
      | none =>
        rw [ugc_event_no_input d type code value ht hin] at h
        exact absurd h (by simp)
      | some inp =>
        cases hfound : ugc_input_search d.input_code_to_index d.input_nodes inp with
        | none =>
          rw [ugc_event_ready_unbound d type code value inp ht hin hs hfound,
            Option.some.injEq] at h
          subst h
          exact ⟨hs, rfl, rfl, rfl, rfl, rfl, rfl⟩
        | some node =>
          by_cases hi : (d.input_nodes node).value < UGC_MAX_INPUTS
          · rw [ugc_event_ready_found d type code value inp node ht hin hs hfound hi,
              Option.some.injEq] at h
            subst h
            exact ⟨hs, rfl, rfl, rfl, rfl, rfl, rfl⟩
          · rw [ugc_event_ready_outside d type code value inp node ht hin hs hfound hi] at h
            exact absurd h (by simp)
    · rw [ugc_event_other_type d type code value ht, Option.some.injEq] at h
      subst h
      exact ⟨hs, rfl, rfl, rfl, rfl, rfl, rfl⟩
  · intro hdef hwf
    by_cases ht : type = EV_REL ∨ type = EV_KEY
    · obtain ⟨inp, hin⟩ := Option.isSome_iff_exists.mp hdef
      cases hfound : ugc_input_search d.input_code_to_index d.input_nodes inp with
      | none => exact ⟨d, ugc_event_ready_unbound d type code value inp ht hin hs hfound⟩
      | some node =>
        have hmem : node ∈ d.input_code_to_index := List.mem_of_find?_eq_some hfound
        exact ⟨_, ugc_event_ready_found d type code value inp node ht hin hs hfound
          (hwf node hmem)⟩
    · exact ⟨d, ugc_event_other_type d type code value ht⟩

/-- An instance of `ready_absorbing`: the release of the bound key 6. -/
theorem ready_absorbing_witness :
    ∃ d1 : ugc_device, ugc_event ready_example EV_KEY 6 0 = some d1 ∧
      d1.config_state = ugc_config_state.READY ∧ d1.count = ready_example.count ∧
      d1.last_input = ready_example.last_input ∧
      d1.input_nodes = ready_example.input_nodes ∧
      d1.input_code_to_index = ready_example.input_code_to_index ∧
      bindings d1 = bindings ready_example ∧ d1.dev = ready_example.dev :=
  let ⟨d1, h1⟩ := (ready_absorbing ready_example EV_KEY 6 0 rfl).2 (by decide) (by decide)
  ⟨d1, h1, (ready_absorbing ready_example EV_KEY 6 0 rfl).1 d1 h1⟩

/-! ## Building the input of an event -/

/-- Claim C17. For an `EV_REL` event with raw value `v` on an axis of range
`(minimum, maximum)`, `ugc_event` builds an input that is negative with
magnitude `normalize_value(0 - v, 0, -minimum)` when `v < 0`, and positive with
magnitude `normalize_value(v, 0, maximum)` when `v ≥ 0`; for an `EV_KEY` event
the input is always positive. Hence a negative and a non-negative sample of one
axis code never have the same identity. (The first two parts are given with the
32-bit `int` arithmetic of the code and, for values that do not overflow it,
with plain integers.) -/
theorem axis_splitting (dev : input_dev) (code : Nat) (v : Int) :
    (v < 0 →
      ugc_event_this_input dev EV_REL code v =
        (normalize_value (u32_of_int (s32_wrap (0 - v))) 0
          (s32_wrap (-(dev.absinfo code).minimum))).map
          (fun m => { type := EV_REL, code := code, positive := false, value := m })) ∧
    (v < 0 → -2 ^ 31 < v → -2 ^ 31 < (dev.absinfo code).minimum →
      (dev.absinfo code).minimum < 2 ^ 31 →
      ugc_event_this_input dev EV_REL code v =
        (normalize_value (u32_of_int (0 - v)) 0 (-(dev.absinfo code).minimum)).map
          (fun m => { type := EV_REL, code := code, positive := false, value := m })) ∧
    (0 ≤ v →
      ugc_event_this_input dev EV_REL code v =
        (normalize_value (u32_of_int v) 0 (dev.absinfo code).maximum).map
          (fun m => { type := EV_REL, code := code, positive := true, value := m })) ∧
    (ugc_event_this_input dev EV_KEY code v =
        (normalize_value (u32_of_int v) 0 1).map
          (fun m => { type := EV_KEY, code := code, positive := true, value := m })) ∧
    (∀ (v1 v2 : Int) (i1 i2 : ugc_input), v1 < 0 → 0 ≤ v2 →
      ugc_event_this_input dev EV_REL code v1 = some i1 →
      ugc_event_this_input dev EV_REL code v2 = some i2 →
      ugc_input_compare i1 i2 ≠ 0) := by
  have hneg : ∀ w : Int, w < 0 →
      ugc_event_this_input dev EV_REL code w =
        (normalize_value (u32_of_int (s32_wrap (0 - w))) 0
          (s32_wrap (-(dev.absinfo code).minimum))).map
          (fun m => { type := EV_REL, code := code, positive := false, value := m }) := by
    intro w hw
    simp [ugc_event_this_input, hw]
  have hpos : ∀ w : Int, 0 ≤ w →
      ugc_event_this_input dev EV_REL code w =
        (normalize_value (u32_of_int w) 0 (dev.absinfo code).maximum).map
          (fun m => { type := EV_REL, code := code, positive := true, value := m }) := by
    intro w hw
    simp [ugc_event_this_input, not_lt.mpr hw]
  refine ⟨hneg v, ?_, hpos v, ?_, ?_⟩
  · intro h0 hv hm1 hm2
    have e1 : s32_wrap (0 - v) = 0 - v := by unfold s32_wrap; omega
    have e2 : s32_wrap (-(dev.absinfo code).minimum) = -(dev.absinfo code).minimum := by
      unfold s32_wrap; omega
    rw [hneg v h0, e1, e2]
  · simp [ugc_event_this_input, EV_KEY, EV_REL]
  · intro v1 v2 i1 i2 h1 h2 e1 e2
    rw [hneg v1 h1] at e1
    rw [hpos v2 h2] at e2
    obtain ⟨m1, -, rfl⟩ := Option.map_eq_some'.mp e1
    obtain ⟨m2, -, rfl⟩ := Option.map_eq_some'.mp e2
    rw [Ne, ugc_input_compare_eq_zero_iff]
    rintro ⟨-, -, h⟩
    exact absurd h Bool.false_ne_true

/-- Witness for `axis_splitting`: the samples `-64` and `64` of axis 3 on a
device whose axes report the range `[-128, 127]`. -/
theorem axis_splitting_witness :
    ugc_event_this_input dev_example EV_REL 3 (-64) =
      (normalize_value (u32_of_int (0 - -64)) 0 (-(dev_example.absinfo 3).minimum)).map
        (fun m => { type := EV_REL, code := 3, positive := false, value := m }) ∧
    ugc_event_this_input dev_example EV_REL 3 64 =
      (normalize_value (u32_of_int 64) 0 (dev_example.absinfo 3).maximum).map
        (fun m => { type := EV_REL, code := 3, positive := true, value := m }) ∧
    ugc_input_compare
      { type := EV_REL, code := 3, positive := false, value := 2147483647 }
      { type := EV_REL, code := 3, positive := true, value := 2164392967 } ≠ 0 :=
  ⟨(axis_splitting dev_example 3 (-64)).2.1 (by decide) (by decide) (by decide) (by decide),
    (axis_splitting dev_example 3 64).2.2.1 (by decide),
    (axis_splitting dev_example 3 0).2.2.2.2 (-64) 64 _ _ (by decide) (by decide)
      (by decide) (by decide)⟩

/-! ## Connecting a device -/

/-- Claim C14. Whenever `ugc_connect_device` acquires a name (slot index `i`),
registers the handle and opens the device, it returns 0 and the record
`g_devices[i]` afterwards is the fresh record: `CONNECTED`, count 0, empty
directory and all 50 entries of `input_state` equal to 0, whatever the record
held before; the other records are unchanged. -/
theorem connect_resets (cs : Bool) (kernel : connect_kernel) (dev : input_dev)
    (st : ugc_globals) (name : Int × Int) (group : ugc_device_group)
    (hk : kernel.kzalloc_ok = true) (hreg : kernel.register_error = 0)
    (hopen : kernel.open_error = 0)
    (hacq : ugc_device_name_acquire cs st.g_device_group = some (some name, group)) :
    ∃ r : connect_result,
      ugc_connect_device cs kernel dev st = some r ∧ r.ret = 0 ∧
      r.handle = some { dev := dev, name := name } ∧
      r.globals.g_device_group = group ∧
      (r.globals.g_devices (UGC_NAME_TO_INDEX name)).config_state =
        ugc_config_state.CONNECTED ∧
      (r.globals.g_devices (UGC_NAME_TO_INDEX name)).count = 0 ∧
      (r.globals.g_devices (UGC_NAME_TO_INDEX name)).input_code_to_index = [] ∧
      bindings (r.globals.g_devices (UGC_NAME_TO_INDEX name)) = [] ∧
      (∀ j : Fin UGC_MAX_INPUTS,
        (r.globals.g_devices (UGC_NAME_TO_INDEX name)).input_state j = 0) ∧
      r.globals.g_devices (UGC_NAME_TO_INDEX name) = ugc_device_connected dev ∧
      (∀ k : Fin UGC_MAX_DEVICES, k ≠ UGC_NAME_TO_INDEX name →
        r.globals.g_devices k = st.g_devices k) := by
  have hrun : ugc_connect_device cs kernel dev st =
      some { ret := 0, handle := some { dev := dev, name := name },
             globals :=
              { g_device_group := group
                g_devices := Function.update st.g_devices (UGC_NAME_TO_INDEX name)
                  (ugc_device_connected dev) } } := by
    unfold ugc_connect_device
    simp [hk, hreg, hopen, hacq]
  refine ⟨_, hrun, rfl, rfl, rfl, ?_, ?_, ?_, ?_, ?_, ?_, ?_⟩
  · simp only [Function.update_same]; rfl
  · simp only [Function.update_same]; rfl
  · simp only [Function.update_same]; rfl
  · simp only [Function.update_same]; rfl
  · intro j
    simp only [Function.update_same]; rfl
  · simp only [Function.update_same]
  · intro k hk1
    simp only [Function.update_noteq hk1]

/-- The first acquisition on the empty group returns the name 0. -/
theorem acquire_init (cs : Bool) :
    ugc_device_name_acquire cs g_device_group_init =
      some (some (ugc_device_name cs 0), first_bits 1) := by
  rw [g_device_group_init_eq]
  exact acquire_first_bits cs 0 (by decide)

/-- Witness for `connect_resets`: a device connects on the slot 0 whose record
still holds the `READY` state, the directory and the populated `input_state` of
a device that was disconnected. -/
theorem connect_resets_witness :
    (reused_example.g_devices 0).config_state = ugc_config_state.READY ∧
    (reused_example.g_devices 0).input_state 0 = 4294967295 ∧
    ∃ r : connect_result,
      ugc_connect_device true kernel_ok dev_example reused_example = some r ∧ r.ret = 0 ∧
      r.handle = some { dev := dev_example, name := ugc_device_name true 0 } ∧
      r.globals.g_device_group = first_bits 1 ∧
      (r.globals.g_devices (UGC_NAME_TO_INDEX (ugc_device_name true 0))).config_state =
        ugc_config_state.CONNECTED ∧
      (r.globals.g_devices (UGC_NAME_TO_INDEX (ugc_device_name true 0))).count = 0 ∧
      (r.globals.g_devices (UGC_NAME_TO_INDEX (ugc_device_name true 0))).input_code_to_index
        = [] ∧
      bindings (r.globals.g_devices (UGC_NAME_TO_INDEX (ugc_device_name true 0))) = [] ∧
      (∀ j : Fin UGC_MAX_INPUTS,
        (r.globals.g_devices (UGC_NAME_TO_INDEX (ugc_device_name true 0))).input_state j
          = 0) ∧
      r.globals.g_devices (UGC_NAME_TO_INDEX (ugc_device_name true 0)) =
        ugc_device_connected dev_example ∧
      (∀ k : Fin UGC_MAX_DEVICES, k ≠ UGC_NAME_TO_INDEX (ugc_device_name true 0) →
        r.globals.g_devices k = reused_example.g_devices k) :=
  ⟨rfl, rfl,
    connect_resets true kernel_ok dev_example reused_example (ugc_device_name true 0)
      (first_bits 1) rfl rfl rfl (acquire_init true)⟩

/-- With all 256 bits set and counted, `ugc_device_name_acquire` returns `NULL`
and leaves the group as it is. -/
theorem acquire_exhausted (cs : Bool) (g : ugc_device_group)
    (hfull : ∀ i : Fin UGC_MAX_DEVICES, g.acquiredbit i = true)
    (hcount : g.num_acquired = bits_set g.acquiredbit) :
    ugc_device_name_acquire cs g = some (none, g) := by
  have hnum : g.num_acquired = UGC_MAX_DEVICES := by
    rw [hcount]
    simp [bits_set, hfull]
  unfold ugc_device_name_acquire
  rw [if_neg (by rw [hnum]; exact lt_irrefl _)]

/-- Claim C18 as stated fails: with all 256 names acquired, `ugc_connect_device`
returns 0, which is also the value it returns when a connect succeeds (here on
the initial globals, where a handle stays registered). -/
theorem connect_exhausted_counterexample :
    (∀ i : Fin UGC_MAX_DEVICES, exhausted_example.g_device_group.acquiredbit i = true) ∧
    exhausted_example.g_device_group.num_acquired = 256 ∧
    (∃ r : connect_result,
      ugc_connect_device true kernel_ok dev_example exhausted_example = some r ∧
      r.ret = 0 ∧ r.handle = none) ∧
    (∃ r : connect_result,
      ugc_connect_device true kernel_ok dev_example ugc_globals_init = some r ∧
      r.ret = 0 ∧ r.handle = some { dev := dev_example, name := ugc_device_name true 0 }) := by
  have hfull : ∀ i : Fin UGC_MAX_DEVICES,
      exhausted_example.g_device_group.acquiredbit i = true := by
    intro i
    simp [exhausted_example, first_bits]
  have hacq := acquire_exhausted true exhausted_example.g_device_group hfull
    (by simp [exhausted_example, first_bits, bits_set])
  have hinit := acquire_init true
  have h1 : ugc_connect_device true kernel_ok dev_example exhausted_example =
      some { ret := 0, handle := none, globals := exhausted_example } := by
    unfold ugc_connect_device
    simp only [hacq]
    rfl
  have h2 : ugc_connect_device true kernel_ok dev_example ugc_globals_init =
      some { ret := 0, handle := some { dev := dev_example, name := ugc_device_name true 0 },
             globals :=
              { g_device_group := first_bits 1
                g_devices := Function.update ugc_globals_init.g_devices
                  (UGC_NAME_TO_INDEX (ugc_device_name true 0))
                  (ugc_device_connected dev_example) } } := by
    unfold ugc_connect_device
    simp only [ugc_globals_init, hinit]
    rfl
  exact ⟨hfull, rfl, ⟨_, h1, rfl, rfl⟩, ⟨_, h2, rfl, rfl⟩⟩

/-- Claim C18, amended. When all 256 names are acquired (all bits set and
counted), `ugc_connect_device` leaves no handle registered and modifies neither
the allocator nor any device record, and it returns 0, the value it also
returns on success: the exhaustion is only logged. (A failure value, `-ENOMEM`,
is returned only when `kzalloc` itself fails.) -/
theorem connect_exhausted (cs : Bool) (kernel : connect_kernel) (dev : input_dev)
    (st : ugc_globals)
    (hfull : ∀ i : Fin UGC_MAX_DEVICES, st.g_device_group.acquiredbit i = true)
    (hcount : st.g_device_group.num_acquired = bits_set st.g_device_group.acquiredbit) :
    (kernel.kzalloc_ok = true →
      ugc_connect_device cs kernel dev st = some { ret := 0, handle := none, globals := st }) ∧
    (kernel.kzalloc_ok = false →
      ugc_connect_device cs kernel dev st =
        some { ret := -ENOMEM, handle := none, globals := st }) := by
  constructor
  · intro hk
    unfold ugc_connect_device
    simp [hk, acquire_exhausted cs st.g_device_group hfull hcount]
  · intro hk
    unfold ugc_connect_device
    simp [hk]

/-- Witness for `connect_exhausted`: a connect on the exhausted pool. -/
theorem connect_exhausted_witness :
    ugc_connect_device false kernel_ok dev_example exhausted_example =
      some { ret := 0, handle := none, globals := exhausted_example } :=
  (connect_exhausted false kernel_ok dev_example exhausted_example
    (fun i => by simp [exhausted_example, first_bits])
    (by simp [exhausted_example, first_bits, bits_set])).1 rfl

/-! ## The capacity of the directory -/

/-- While `CONFIGURING`, learning a new identity when `count` is 50 or more
writes outside `input_nodes`. -/
theorem ugc_event_configuring_outside (d : ugc_device) (type code : Nat) (value : Int)
    (inp : ugc_input) (ht : type = EV_REL ∨ type = EV_KEY)
    (hin : ugc_event_this_input d.dev type code value = some inp)
    (hs : d.config_state = ugc_config_state.CONFIGURING)
    (hp : g_UGC_MIN_PRESSED_VALUE ≤ inp.value)
    (hnew : ugc_input_search d.input_code_to_index d.input_nodes inp = none)
    (hfirst : ¬ (d.count = 0 ∧ ugc_input_compare d.last_input inp = 0))
    (hc : ¬ d.count < UGC_MAX_INPUTS) :
    ugc_event d type code value = none := by
  have hskip : ¬ ((ugc_input_search d.input_code_to_index d.input_nodes inp).isSome = true ∨
      (d.count = 0 ∧ decide (ugc_input_compare d.last_input inp = 0) = true)) := by
    rw [hnew]
    simpa using hfirst
  unfold ugc_event
  simp only [ht, hin, hs, hp, if_true, ne_eq, reduceCtorEq, not_false_eq_true, and_self,
    if_false, if_neg hskip, dif_neg hc]

/-- Claim C13 fails on the code. A freshly connected device enters
`CONFIGURING` through ten presses of key 700 and learns the 50 keys `0 .. 49`:
it is still `CONFIGURING` with count 50 and 50 bindings. The press of a 51st key
(key 50) is not dropped: with `count = 50` the code writes the node
`input_nodes[50]`, outside the array of 50 nodes. -/
theorem capacity_overrun :
    ∃ d : ugc_device,
      ugc_events (ugc_device_connected dev_example)
        (List.replicate 10 (key_press 700) ++ (List.range 50).map key_press) = some d ∧
      d.config_state = ugc_config_state.CONFIGURING ∧ d.count = 50 ∧
      (bindings d).length = 50 ∧
      ¬ d.count < UGC_MAX_INPUTS ∧
      ugc_event d EV_KEY 50 1 = none :=
  ⟨_, rfl, rfl, rfl, rfl, by decide, rfl⟩

/-! ## The ordering invariant of the directory -/

theorem directory_wf_connected (dev : input_dev) : directory_wf (ugc_device_connected dev) := by
  refine ⟨rfl, ?_, ?_, fun _ => rfl, fun h => absurd rfl h⟩
  · intro n hn
    exact absurd hn (List.not_mem_nil n)
  · exact List.Pairwise.nil

/-- A record with the same nodes and the same tree is well-formed as soon as
its state and count fit. -/
theorem directory_wf_of_same (d d1 : ugc_device) (hwf : directory_wf d)
    (hn : d1.input_nodes = d.input_nodes)
    (hr : d1.input_code_to_index = d.input_code_to_index)
    (h0 : d1.config_state = ugc_config_state.CONNECTED → d.input_code_to_index = [])
    (hc : d1.config_state ≠ ugc_config_state.CONNECTED →
      d1.count = d.input_code_to_index.length) :
    directory_wf d1 := by
  unfold directory_wf bindings at hwf ⊢
  rw [hn, hr]
  exact ⟨hwf.1, hwf.2.1, hwf.2.2.1, h0, hc⟩

theorem bindings_of_same (d d1 : ugc_device) (hn : d1.input_nodes = d.input_nodes)
    (hr : d1.input_code_to_index = d.input_code_to_index) : bindings d1 = bindings d := by
  unfold bindings
  rw [hn, hr]

/-- In a well-formed record the linked nodes lie below the number of entries. -/
theorem directory_wf_lt (d : ugc_device) (hwf : directory_wf d) (n : Fin UGC_MAX_INPUTS)
    (hn : n ∈ d.input_code_to_index) : n.val < d.input_code_to_index.length := by
  have h1 : n.val ∈ d.input_code_to_index.map Fin.val := List.mem_map_of_mem Fin.val hn
  rw [hwf.1] at h1
  exact List.mem_range.mp h1

theorem directory_wf_length_le (d : ugc_device) (hwf : directory_wf d) :
    d.input_code_to_index.length ≤ UGC_MAX_INPUTS := by
  by_contra hgt
  have hmem : (50 : Nat) ∈ List.range d.input_code_to_index.length :=
    List.mem_range.mpr (by
      have : ¬ d.input_code_to_index.length ≤ 50 := hgt
      omega)
  rw [← hwf.1] at hmem
  obtain ⟨n, -, hn⟩ := List.mem_map.mp hmem
  have h3 : n.val < 50 := n.isLt
  omega

/-- The result of learning a new identity in a well-formed `CONFIGURING` record
is well-formed, and its bindings are the old ones followed by the new identity
with the next logical index. -/
theorem directory_wf_learn (d : ugc_device) (inp : ugc_input) (st : ugc_config_state)
    (hwf : directory_wf d) (hs : d.config_state = ugc_config_state.CONFIGURING)
    (hc : d.count < UGC_MAX_INPUTS)
    (hnew : ugc_input_search d.input_code_to_index d.input_nodes inp = none)
    (hst : st ≠ ugc_config_state.CONNECTED) :
    directory_wf
      { d with
        input_nodes := Function.update d.input_nodes ⟨d.count, hc⟩ { inp with value := d.count }
        input_code_to_index := d.input_code_to_index ++ [⟨d.count, hc⟩]
        count := d.count + 1
        config_state := st } ∧
    bindings
      { d with
        input_nodes := Function.update d.input_nodes ⟨d.count, hc⟩ { inp with value := d.count }
        input_code_to_index := d.input_code_to_index ++ [⟨d.count, hc⟩]
        count := d.count + 1
        config_state := st } =
      bindings d ++ [{ inp with value := (bindings d).length }] := by
  have hcount : d.count = d.input_code_to_index.length :=
    hwf.2.2.2.2 (by rw [hs]; decide)
  have hne : ∀ n ∈ d.input_code_to_index, n ≠ (⟨d.count, hc⟩ : Fin UGC_MAX_INPUTS) := by
    intro n hn heq
    have h1 := directory_wf_lt d hwf n hn
    have h2 : n.val = d.count := congrArg Fin.val heq
    omega
  have hmap : d.input_code_to_index.map
        (Function.update d.input_nodes ⟨d.count, hc⟩ { inp with value := d.count }) =
      d.input_code_to_index.map d.input_nodes :=
    List.map_congr_left (fun n hn => Function.update_noteq (hne n hn) _ _)
  have hb : bindings
      { d with
        input_nodes := Function.update d.input_nodes ⟨d.count, hc⟩ { inp with value := d.count }
        input_code_to_index := d.input_code_to_index ++ [⟨d.count, hc⟩]
        count := d.count + 1
        config_state := st } =
      bindings d ++ [{ inp with value := (bindings d).length }] := by
    simp only [bindings, List.map_append, hmap, List.map_cons, List.map_nil,
      Function.update_same]
    rw [List.length_map, ← hcount]
  refine ⟨⟨?_, ?_, ?_, ?_, ?_⟩, hb⟩
  · simp only [List.map_append, List.map_cons, List.map_nil, List.length_append,
      List.length_singleton, List.range_succ, hwf.1, hcount]
  · intro n hn
    rcases List.mem_append.mp hn with h | h
    · simp only [Function.update_noteq (hne n h)]
      exact hwf.2.1 n h
    · rw [List.mem_singleton.mp h]
      simp only [Function.update_same]
  · rw [hb, List.pairwise_append]
    refine ⟨hwf.2.2.1, List.pairwise_singleton _ _, ?_⟩
    intro a ha b hb1
    rw [List.mem_singleton.mp hb1]
    obtain ⟨n, hn, rfl⟩ := List.mem_map.mp ha
    have hnone := List.find?_eq_none.mp hnew n hn
    intro hz
    exact hnone (decide_eq_true (show ugc_input_compare (d.input_nodes n) inp = 0 from hz))
  · intro h
    exact absurd h hst
  · intro _
    simp only [List.length_append, List.length_singleton, hcount]

/-- While `CONNECTED`, a press changes neither the nodes nor the tree, and the
device stays `CONNECTED` or becomes `CONFIGURING` with count 0. -/
theorem ugc_event_connected_pressed (d : ugc_device) (type code : Nat) (value : Int)
    (inp : ugc_input) (ht : type = EV_REL ∨ type = EV_KEY)
    (hin : ugc_event_this_input d.dev type code value = some inp)
    (hs : d.config_state = ugc_config_state.CONNECTED)
    (hp : g_UGC_MIN_PRESSED_VALUE ≤ inp.value) :
    ∃ d1 : ugc_device,
      ugc_event d type code value = some d1 ∧ d1.input_nodes = d.input_nodes ∧
      d1.input_code_to_index = d.input_code_to_index ∧ d1.dev = d.dev ∧
      (d1.config_state = ugc_config_state.CONNECTED ∨
        (d1.config_state = ugc_config_state.CONFIGURING ∧ d1.count = 0)) := by
  unfold ugc_event
  simp only [ht, hin, hs, hp, if_true, ne_eq, reduceCtorEq, not_false_eq_true, and_self]
  split_ifs
  · exact ⟨_, rfl, rfl, rfl, rfl, Or.inr ⟨rfl, rfl⟩⟩
  · exact ⟨_, rfl, rfl, rfl, rfl, Or.inl rfl⟩
  · exact ⟨_, rfl, rfl, rfl, rfl, Or.inl rfl⟩

/-- One event keeps a record well-formed; its bindings stay as they are, or the
identity of the event, not bound before, is added at the end with the next
logical index. -/
theorem directory_wf_step (d d1 : ugc_device) (type code : Nat) (value : Int)
    (hwf : directory_wf d) (h : ugc_event d type code value = some d1) :
    directory_wf d1 ∧ d1.dev = d.dev ∧
    (bindings d1 = bindings d ∨
      ∃ inp : ugc_input, (type = EV_REL ∨ type = EV_KEY) ∧
        ugc_event_this_input d.dev type code value = some inp ∧
        ugc_input_search d.input_code_to_index d.input_nodes inp = none ∧
        bindings d1 = bindings d ++ [{ inp with value := (bindings d).length }]) := by
  have hsame : ugc_event d type code value = some d → 
      directory_wf d1 ∧ d1.dev = d.dev ∧
      (bindings d1 = bindings d ∨
        ∃ inp : ugc_input, (type = EV_REL ∨ type = EV_KEY) ∧
          ugc_event_this_input d.dev type code value = some inp ∧
          ugc_input_search d.input_code_to_index d.input_nodes inp = none ∧
          bindings d1 = bindings d ++ [{ inp with value := (bindings d).length }]) := by
    intro h0
    rw [h0, Option.some.injEq] at h
    subst h
    exact ⟨hwf, rfl, Or.inl rfl⟩
  by_cases ht : type = EV_REL ∨ type = EV_KEY
  · rcases Option.eq_none_or_eq_some (ugc_event_this_input d.dev type code value) with
      hin | ⟨inp, hin⟩
    · rw [ugc_event_no_input d type code value ht hin] at h
      exact absurd h (by simp)
    · cases hst : d.config_state with
    | READY =>
      cases hfound : ugc_input_search d.input_code_to_index d.input_nodes inp with
      | none => exact hsame (ugc_event_ready_unbound d type code value inp ht hin hst hfound)
      | some node =>
        by_cases hi : (d.input_nodes node).value < UGC_MAX_INPUTS
        · rw [ugc_event_ready_found d type code value inp node ht hin hst hfound hi,
            Option.some.injEq] at h
          subst h
          refine ⟨directory_wf_of_same d _ hwf rfl rfl hwf.2.2.2.1 hwf.2.2.2.2, rfl,
            Or.inl rfl⟩
        · rw [ugc_event_ready_outside d type code value inp node ht hin hst hfound hi] at h
          exact absurd h (by simp)
    | CONNECTED =>
      by_cases hp : g_UGC_MIN_PRESSED_VALUE ≤ inp.value
      · obtain ⟨d2, h2, hn, hr, hdev, hcase⟩ :=
          ugc_event_connected_pressed d type code value inp ht hin hst hp
        rw [h2, Option.some.injEq] at h
        subst h
        have hempty : d.input_code_to_index = [] := hwf.2.2.2.1 hst
        refine ⟨directory_wf_of_same d d2 hwf hn hr (fun _ => hempty) ?_, hdev,
          Or.inl (bindings_of_same d d2 hn hr)⟩
        intro hne
        rcases hcase with hc | ⟨-, hc⟩
        · exact absurd hc hne
        · rw [hc, hempty]
          rfl
      · exact hsame (ugc_event_not_pressed d type code value inp ht hin
          (by rw [hst]; decide) (not_le.mp hp))
    | CONFIGURING =>
      by_cases hp : g_UGC_MIN_PRESSED_VALUE ≤ inp.value
      · by_cases hskip : (ugc_input_search d.input_code_to_index d.input_nodes inp).isSome ∨
            (d.count = 0 ∧ ugc_input_compare d.last_input inp = 0)
        · exact hsame (ugc_event_configuring_skip d type code value inp ht hin hst hskip)
        · have hnew : ugc_input_search d.input_code_to_index d.input_nodes inp = none := by
            cases hsr : ugc_input_search d.input_code_to_index d.input_nodes inp with
            | none => rfl
            | some n => exact absurd (Or.inl (by rw [hsr]; rfl)) hskip
          have hfirst : ¬ (d.count = 0 ∧ ugc_input_compare d.last_input inp = 0) :=
            fun hf => hskip (Or.inr hf)
          by_cases hc : d.count < UGC_MAX_INPUTS
          · have hcount : d.count = d.input_code_to_index.length :=
              hwf.2.2.2.2 (by rw [hst]; decide)
            have hfree : (⟨d.count, hc⟩ : Fin UGC_MAX_INPUTS) ∉ d.input_code_to_index := by
              intro hmem
              have := directory_wf_lt d hwf _ hmem
              simp only at this
              omega
            rw [ugc_event_configuring_learn d type code value inp ht hin hst hp hnew hfirst
              hc hfree (hcount ▸ hc), Option.some.injEq] at h
            subst h
            have hl := directory_wf_learn d inp
              (if ugc_input_compare d.last_input inp = 0 then ugc_config_state.READY
                else ugc_config_state.CONFIGURING)
              hwf hst hc hnew (by split_ifs <;> decide)
            exact ⟨hl.1, rfl, Or.inr ⟨inp, ht, hin, hnew, hl.2⟩⟩
          · rw [ugc_event_configuring_outside d type code value inp ht hin hst hp hnew
              hfirst hc] at h
            exact absurd h (by simp)
      · exact hsame (ugc_event_not_pressed d type code value inp ht hin
          (by rw [hst]; decide) (not_le.mp hp))
  · exact hsame (ugc_event_other_type d type code value ht)

/-- In a well-formed record an event on which the normaliser is defined has a
defined effect, as long as a `CONFIGURING` record has room for one more node. -/
theorem directory_wf_progress (d : ugc_device) (type code : Nat) (value : Int)
    (inp : ugc_input) (hwf : directory_wf d) (ht : type = EV_REL ∨ type = EV_KEY)
    (hin : ugc_event_this_input d.dev type code value = some inp)
    (hroom : d.config_state = ugc_config_state.CONFIGURING → d.count < UGC_MAX_INPUTS) :
    ∃ d1 : ugc_device, ugc_event d type code value = some d1 := by
  cases hst : d.config_state with
  | READY =>
    cases hfound : ugc_input_search d.input_code_to_index d.input_nodes inp with
    | none => exact ⟨d, ugc_event_ready_unbound d type code value inp ht hin hst hfound⟩
    | some node =>
      have hmem : node ∈ d.input_code_to_index := List.mem_of_find?_eq_some hfound
      have hval : (d.input_nodes node).value < UGC_MAX_INPUTS := by
        rw [hwf.2.1 node hmem]
        exact node.isLt
      exact ⟨_, ugc_event_ready_found d type code value inp node ht hin hst hfound hval⟩
  | CONNECTED =>
    by_cases hp : g_UGC_MIN_PRESSED_VALUE ≤ inp.value
    · obtain ⟨d2, h2, -⟩ := ugc_event_connected_pressed d type code value inp ht hin hst hp
      exact ⟨d2, h2⟩
    · exact ⟨d, ugc_event_not_pressed d type code value inp ht hin
        (by rw [hst]; decide) (not_le.mp hp)⟩
  | CONFIGURING =>
    by_cases hp : g_UGC_MIN_PRESSED_VALUE ≤ inp.value
    · by_cases hskip : (ugc_input_search d.input_code_to_index d.input_nodes inp).isSome ∨
          (d.count = 0 ∧ ugc_input_compare d.last_input inp = 0)
      · exact ⟨d, ugc_event_configuring_skip d type code value inp ht hin hst hskip⟩
      · have hnew : ugc_input_search d.input_code_to_index d.input_nodes inp = none := by
          cases hsr : ugc_input_search d.input_code_to_index d.input_nodes inp with
          | none => rfl
          | some n => exact absurd (Or.inl (by rw [hsr]; rfl)) hskip
        have hc : d.count < UGC_MAX_INPUTS := hroom hst
        have hcount : d.count = d.input_code_to_index.length :=
          hwf.2.2.2.2 (by rw [hst]; decide)
        have hfree : (⟨d.count, hc⟩ : Fin UGC_MAX_INPUTS) ∉ d.input_code_to_index := by
          intro hmem
          have := directory_wf_lt d hwf _ hmem
          simp only at this
          omega
        exact ⟨_, ugc_event_configuring_learn d type code value inp ht hin hst hp hnew
          (fun hf => hskip (Or.inr hf)) hc hfree (hcount ▸ hc)⟩
    · exact ⟨d, ugc_event_not_pressed d type code value inp ht hin
        (by rw [hst]; decide) (not_le.mp hp)⟩

/-- Every record reached from a well-formed one by a sequence of events is
well-formed and belongs to the same kernel device. -/
theorem directory_wf_events (es : List ugc_raw_event) :
    ∀ (d0 d : ugc_device), directory_wf d0 → ugc_events d0 es = some d →
      directory_wf d ∧ d.dev = d0.dev := by
  induction es with
  | nil =>
    intro d0 d hwf h
    rw [ugc_events, Option.some.injEq] at h
    subst h
    exact ⟨hwf, rfl⟩
  | cons e es ih =>
    intro d0 d hwf h
    cases hstep : ugc_event d0 e.type e.code e.value with
    | none =>
      rw [ugc_events, hstep] at h
      exact absurd h (by simp)
    | some d1 =>
      rw [ugc_events_cons d0 e es d1 hstep] at h
      have h1 := directory_wf_step d0 d1 e.type e.code e.value hwf hstep
      have h2 := ih d1 d h1.1 h
      exact ⟨h2.1, h2.2.trans h1.2.1⟩

/-- Claim C19. In every device state reached from a fresh connect by a sequence
of events (which is so whenever fewer than 50 distinct identities are presented
while `CONFIGURING`), the identities in the directory are pairwise distinct, the
logical indices are exactly `0, 1, ..., n - 1` for the `n` entries, there are at
most 50 entries, and while `CONFIGURING` the count is `n`. The indices follow
the order in which the identities were first seen: a further event leaves the
directory as it is or adds its identity, not bound before, at the end with the
logical index `n`; and such an event has a defined effect as long as a
`CONFIGURING` device holds fewer than 50 entries. -/
theorem directory_invariant (dev : input_dev) (es : List ugc_raw_event) (d : ugc_device)
    (hrun : ugc_events (ugc_device_connected dev) es = some d) :
    (bindings d).Pairwise (fun a b => ugc_input_compare a b ≠ 0) ∧
    (bindings d).map (fun b => b.value) = List.range (bindings d).length ∧
    (bindings d).length ≤ UGC_MAX_INPUTS ∧
    (d.config_state = ugc_config_state.CONFIGURING → d.count = (bindings d).length) ∧
    (∀ (e : ugc_raw_event) (d1 : ugc_device),
      ugc_event d e.type e.code e.value = some d1 →
      bindings d1 = bindings d ∨
      ∃ inp : ugc_input, event_input d.dev e inp ∧
        ugc_input_search d.input_code_to_index d.input_nodes inp = none ∧
        bindings d1 = bindings d ++ [{ inp with value := (bindings d).length }]) ∧
    (∀ (e : ugc_raw_event) (inp : ugc_input), event_input d.dev e inp →
      (d.config_state = ugc_config_state.CONFIGURING → (bindings d).length < UGC_MAX_INPUTS) →
      ∃ d1 : ugc_device, ugc_event d e.type e.code e.value = some d1) := by
  have hwf : directory_wf d :=
    (directory_wf_events es _ d (directory_wf_connected dev) hrun).1
  have hlen : (bindings d).length = d.input_code_to_index.length := by
    simp [bindings]
  refine ⟨hwf.2.2.1, ?_, ?_, ?_, ?_, ?_⟩
  · rw [hlen, ← hwf.1]
    simp only [bindings, List.map_map]
    exact List.map_congr_left (fun n hn => hwf.2.1 n hn)
  · rw [hlen]
    exact directory_wf_length_le d hwf
  · intro hs
    rw [hlen]
    exact hwf.2.2.2.2 (by rw [hs]; decide)
  · intro e d1 h1
    rcases (directory_wf_step d d1 e.type e.code e.value hwf h1).2.2 with h | ⟨inp, ht, hin, hnew, hb⟩
    · exact Or.inl h
    · exact Or.inr ⟨inp, ⟨ht, hin⟩, hnew, hb⟩
  · intro e inp hev hroom
    exact directory_wf_progress d e.type e.code e.value inp hwf hev.1 hev.2
      (fun hs => by
        have h1 := hroom hs
        have h2 := hwf.2.2.2.2 (by rw [hs]; decide)
        rw [hlen] at h1
        rw [h2]
        exact h1)

/-- Witness for `directory_invariant`: a fresh device that sees ten presses of
key 5 and then the keys 6, 7 and 5. -/
theorem directory_invariant_witness :
    ∃ d : ugc_device,
      ugc_events (ugc_device_connected dev_example)
        (List.replicate 10 (key_press 5) ++ [key_press 6, key_press 7, key_press 5]) =
        some d ∧
      (bindings d).Pairwise (fun a b => ugc_input_compare a b ≠ 0) ∧
      (bindings d).map (fun b => b.value) = List.range (bindings d).length ∧
      (bindings d).length ≤ UGC_MAX_INPUTS ∧
      (d.config_state = ugc_config_state.CONFIGURING → d.count = (bindings d).length) :=
  let ⟨d, h⟩ := Option.isSome_iff_exists.mp
    (show (ugc_events (ugc_device_connected dev_example)
      (List.replicate 10 (key_press 5) ++ [key_press 6, key_press 7, key_press 5])).isSome = true
      from rfl)
  have hall := directory_invariant dev_example _ d h
  ⟨d, h, hall.1, hall.2.1, hall.2.2.1, hall.2.2.2.1⟩

/-! ## The table of device names -/

/-- Claim C21. For every index `i` in `0 .. 255`, whether plain `char` is signed
or not, `UGC_NAME_TO_INDEX(ugc_device_name[i]) = i`: the first character of row
`i`, read back as an `unsigned char`, is `i`, and the second one is the
terminator. So releasing the name of row `i` addresses exactly bit `i`, the
record looked up for it is record `i`, and the name handed out by
`ugc_device_name_acquire` when `i` is the lowest clear bit is released again on
bit `i`, which gives back the bitmap. -/
theorem name_round_trip (cs : Bool) (i : Fin UGC_MAX_DEVICES) :
    UGC_NAME_TO_INDEX (ugc_device_name cs i.val) = i ∧
    (ugc_device_name cs i.val).2 = 0 ∧
    (∀ g : ugc_device_group,
      (ugc_device_name_release g (ugc_device_name cs i.val)).acquiredbit =
        Function.update g.acquiredbit i false) ∧
    (∀ g_devices : Fin UGC_MAX_DEVICES → ugc_device,
      g_devices (UGC_NAME_TO_INDEX (ugc_device_name cs i.val)) = g_devices i) ∧
    (∀ g : ugc_device_group, g.num_acquired < UGC_MAX_DEVICES → g.acquiredbit i = false →
      (∀ j : Fin UGC_MAX_DEVICES, j < i → g.acquiredbit j = true) →
      ∃ (name : Int × Int) (g1 : ugc_device_group),
        ugc_device_name_acquire cs g = some (some name, g1) ∧
        UGC_NAME_TO_INDEX name = i ∧ g1.acquiredbit i = true ∧
        (ugc_device_name_release g1 name).acquiredbit = g.acquiredbit) := by
  have hrt := name_to_index cs i
  have hrel : ∀ g : ugc_device_group,
      (ugc_device_name_release g (ugc_device_name cs i.val)).acquiredbit =
        Function.update g.acquiredbit i false := by
    intro g
    simp only [ugc_device_name_release, test_and_clear_bit, hrt]
    split_ifs <;> rfl
  refine ⟨hrt, rfl, hrel, ?_, ?_⟩
  · intro g_devices
    rw [hrt]
  · intro g hn hclear hall
    refine ⟨_, _, acquire_lowest cs g i hn hclear hall, hrt, ?_, ?_⟩
    · simp
    · rw [hrel]
      simp only
      rw [Function.update_idem, ← hclear]
      exact Function.update_eq_self _ _

/-- Witness for `name_round_trip`: row 200, whose character is `-56` when plain
`char` is signed and `200` when it is not; and the name handed out on the empty
group. -/
theorem name_round_trip_witness :
    ugc_device_name true 200 = (-56, 0) ∧ ugc_device_name false 200 = (200, 0) ∧
    UGC_NAME_TO_INDEX (ugc_device_name true 200) = 200 ∧
    UGC_NAME_TO_INDEX (ugc_device_name false 200) = 200 ∧
    ∃ (name : Int × Int) (g1 : ugc_device_group),
      ugc_device_name_acquire true g_device_group_init = some (some name, g1) ∧
      UGC_NAME_TO_INDEX name = 0 ∧ g1.acquiredbit 0 = true ∧
      (ugc_device_name_release g1 name).acquiredbit = g_device_group_init.acquiredbit :=
  ⟨by decide, by decide, (name_round_trip true 200).1, (name_round_trip false 200).1,
    (name_round_trip true 0).2.2.2.2 g_device_group_init (by decide) rfl
      (fun j hj => absurd hj (Nat.not_lt_zero _))⟩

/-! ## The normaliser on the ranges that are used -/

/-- Claim C22. For `minimum = 0`, every `maximum` with `1 ≤ maximum ≤ 2 ^ 31 - 1`
and every raw value with `0 ≤ raw ≤ maximum`, `normalize_value(raw, 0, maximum)`
is `raw * (2 ^ 32 - 1) / maximum` rounded down: the product stays below `2 ^ 64`
and the quotient below `2 ^ 32`, so nothing is lost in the 64-bit arithmetic or
in the truncation to 32 bits. In particular `normalize_value(1, 0, 1) =
2 ^ 32 - 1`, which is press-like, and `normalize_value(0, 0, 1) = 0`, which is
not. -/
theorem normalize_value_used_ranges (raw maximum : Int)
    (h1 : 1 ≤ maximum) (hmax : maximum ≤ 2 ^ 31 - 1) (h0 : 0 ≤ raw) (hle : raw ≤ maximum) :
    normalize_value (u32_of_int raw) 0 maximum =
      some (raw.toNat * (2 ^ 32 - 1) / maximum.toNat) ∧
    ((raw.toNat * (2 ^ 32 - 1) / maximum.toNat : Nat) : Int) =
      ⌊((raw * (2 ^ 32 - 1) : Int) : ℚ) / ((maximum : Int) : ℚ)⌋ ∧
    raw.toNat * (2 ^ 32 - 1) < 2 ^ 64 ∧
    raw.toNat * (2 ^ 32 - 1) / maximum.toNat < 2 ^ 32 ∧
    normalize_value (u32_of_int 1) 0 1 = some (2 ^ 32 - 1) ∧
    g_UGC_MIN_PRESSED_VALUE ≤ 2 ^ 32 - 1 ∧
    normalize_value (u32_of_int 0) 0 1 = some 0 ∧
    ¬ g_UGC_MIN_PRESSED_VALUE ≤ 0 := by
  have ha : raw - 0 = (raw.toNat : Int) := by omega
  have hd : maximum - 0 = (maximum.toNat : Int) := by omega
  have hd0 : 0 < maximum.toNat := by omega
  have had : raw.toNat ≤ maximum.toNat := by omega
  have hd32 : maximum.toNat < 2 ^ 32 := by omega
  have hprod : raw.toNat * (2 ^ 32 - 1) < 2 ^ 64 := by
    have : raw.toNat * (2 ^ 32 - 1) ≤ 2 ^ 32 * (2 ^ 32 - 1) :=
      Nat.mul_le_mul_right _ (le_of_lt (lt_of_le_of_lt had hd32))
    omega
  have hq : raw.toNat * (2 ^ 32 - 1) / maximum.toNat ≤ 2 ^ 32 - 1 := by
    calc raw.toNat * (2 ^ 32 - 1) / maximum.toNat
        ≤ maximum.toNat * (2 ^ 32 - 1) / maximum.toNat :=
          Nat.div_le_div_right (Nat.mul_le_mul_right _ had)
      _ = 2 ^ 32 - 1 := Nat.mul_div_cancel_left _ hd0
  refine ⟨normalize_value_floor raw 0 maximum raw.toNat maximum.toNat (by omega) (by omega) h0
    hle ha hd hd0, ?_, hprod, by omega, by decide, by decide, by decide, by decide⟩
  have hr : raw = (raw.toNat : Int) := by omega
  have hm : maximum = (maximum.toNat : Int) := by omega
  rw [hr, hm, Int.toNat_ofNat, Int.toNat_ofNat, Int.cast_natCast (R := ℚ) maximum.toNat,
    Rat.floor_intCast_div_natCast]
  push_cast
  rfl

/-- Witness for `normalize_value_used_ranges`: the sample 64 of an axis whose
maximum is 127. -/
theorem normalize_value_used_ranges_witness :
    normalize_value (u32_of_int 64) 0 127 = some 2164392967 ∧
    (64 : Int).toNat * (2 ^ 32 - 1) < 2 ^ 64 ∧
    (64 : Int).toNat * (2 ^ 32 - 1) / (127 : Int).toNat < 2 ^ 32 :=
  have h := normalize_value_used_ranges 64 127 (by decide) (by decide) (by decide) (by decide)
  ⟨h.1, h.2.2.1, h.2.2.2.1⟩

/-! ## Events in `READY` on which the normaliser is not defined -/

/-- Claim C16 fails on the code. A device whose axes report the range `[0, 255]`
connects, enters `CONFIGURING` through ten presses of key 5 and becomes `READY`
through the keys 6 and 5 (logical indices 0 and 1). It then receives the
`EV_REL` event of code 3 and value `-5`: the code evaluates
`normalize_value(0 - value, 0, -absinfo->minimum)`, that is
`normalize_value(5, 0, 0)`, which divides by `(__u64)((__s64)0 - 0) = 0`. So
`ugc_event` has no defined result on this event: the device is not left `READY`
with its count, `last_input` and directory. -/
theorem ready_event_divides_by_zero :
    ugc_events (ugc_device_connected dev_trigger_example)
      (List.replicate 10 (key_press 5) ++ [key_press 6, key_press 5]) =
      some ready_trigger_example ∧
    ready_trigger_example.config_state = ugc_config_state.READY ∧
    bindings ready_trigger_example =
      [{ key_input 6 with value := 0 }, { key_input 5 with value := 1 }] ∧
    (ready_trigger_example.dev.absinfo 3).minimum = 0 ∧
    u32_of_int (s32_wrap (0 - (-5))) = 5 ∧
    s32_wrap (-(ready_trigger_example.dev.absinfo 3).minimum) = 0 ∧
    normalize_value 5 0 0 = none ∧
    ugc_event_this_input ready_trigger_example.dev EV_REL 3 (-5) = none ∧
    ugc_event ready_trigger_example EV_REL 3 (-5) = none ∧
    ¬ ∃ d1 : ugc_device, ugc_event ready_trigger_example EV_REL 3 (-5) = some d1 ∧
      d1.config_state = ugc_config_state.READY := by
  have hnone : ugc_event ready_trigger_example EV_REL 3 (-5) = none := rfl
  refine ⟨rfl, rfl, rfl, rfl, by decide, by decide, by decide, by decide, hnone, ?_⟩
  rintro ⟨d1, h, -⟩
  rw [hnone] at h
  exact Option.noConfusion h

end UGC
